import Mathlib

/-!
# Verification of the stacked-series gap-fix algorithms

This file gives a shallow embedding of the three JavaScript variants of the
`stackedSeriesGapFix` utility found in this repository and proves properties
of them.

* `V11` embeds `src/unnamed/part_000` (version 1.1.0, the canonical variant):
  cross-series gap collection with tagging, descending-index processing,
  gapfix-duplicate guard.
* `V10` embeds `src/unnamed/part_001` (version 1.0.0): immediate-neighbour
  policy, fix-record list, value carry-over for non-gapped series.
* `SGF1` embeds the first factory of `src/stackedSeriesGapFix.js`:
  single-series, walk-to-nearest-non-null policy, ascending insertion.

JavaScript numbers are modelled as `Int` (all data in the claims is integral),
`null` as `none : Option Int`, and JavaScript exceptions (`TypeError` on a
property access of `undefined`) as an error flag.  Because the JS code mutates
its input in place, the top-level functions return the (possibly partially)
mutated state *together with* the optional error, so that state mutated before
an exception is thrown remains observable, exactly as for the JS caller.

The time offset `fixTimeDistance` is `1000` in `part_000`; the functions take
it as the explicit parameter `d` so that the documented value `δ = 1` used by
the specification's examples can be supplied as well; `fixTimeDistance` below
records the source's constant.
-/

namespace V11

/-- The `type` tags that `part_000` writes on points: `'gap'` on null-valued
original points during the scan pass, `'gapfix'` on inserted fix points. -/
inductive PType where
  | gap
  | gapfix
deriving DecidableEq, Repr

/-- The marker object attached to fix points:
`{enabled: false, states: {hover: {enabled: false}}}`. -/
structure Marker where
  enabled : Bool
  hoverEnabled : Bool
deriving DecidableEq, Repr

/-- A series point `{x, y}`, with the optional `type` tag and optional marker
added by the algorithm (`none` models an absent JS property). -/
structure Point where
  x : Int
  y : Option Int
  type : Option PType
  marker : Option Marker
deriving DecidableEq, Repr

/-- A series `{id, data}`; `id` is `none` when the caller supplied none. -/
structure Series where
  id : Option Int
  data : List Point
deriving DecidableEq, Repr

/-- A gap record collected by the scan pass:
`{ids: [seriesId, ...], index: iData, x: data[iData].x, y: data[iData].y}`. -/
structure Gap where
  ids : List Int
  index : Nat
  x : Int
  y : Option Int
deriving DecidableEq, Repr

/-- The `{x, y}` object returned by `getPrev`/`getNext` (only built for
points whose `y` is not null, so `y` is a plain value here). -/
structure Boundary where
  x : Int
  y : Int
deriving DecidableEq, Repr

/-- `var fixTimeDistance = 1000;` — the source's fix-point time offset. -/
def fixTimeDistance : Int := 1000

/-- `getPrev(data, index)` of `part_000`: walk `index-1, index-2, ...`;
return `null` on a `'gap'`-tagged point, the point's `{x, y}` on a non-null
value, and keep walking otherwise.  The JS loop `while (index >= 0)` runs once
more when `index` reaches `0`: it then reads `data[-1].type`, i.e. `.type` of
`undefined`, which throws a `TypeError` — modelled by `Except.error ()`.
An out-of-range read (`data[i]` with `i ≥ data.length`) likewise throws. -/
def getPrev (data : List Point) : Nat → Except Unit (Option Boundary)
  | 0 => .error ()
  | i + 1 =>
    match data[i]? with
    | none => .error ()
    | some prev =>
      if prev.type = some PType.gap then .ok none
      else
        match prev.y with
        | some yv => .ok (some ⟨prev.x, yv⟩)
        | none => getPrev data i

/-- The body of `getNext`'s walk: examine the points after the start index in
order; `null` on a `'gap'`-tagged point, `{x, y}` on a non-null value,
keep walking otherwise, `null` when the array ends. -/
def getNextAux : List Point → Option Boundary
  | [] => none
  | next :: rest =>
    if next.type = some PType.gap then none
    else
      match next.y with
      | some yv => some ⟨next.x, yv⟩
      | none => getNextAux rest

/-- `getNext(data, index)` of `part_000`: `while (index < data.length - 1)`
walks `index+1, index+2, ...`, i.e. over `data.drop (index + 1)`; it never
reads out of range. -/
def getNext (data : List Point) (index : Nat) : Option Boundary :=
  getNextAux (data.drop (index + 1))

/-- `createGapFixPoint(x, y)`: a `'gapfix'`-typed point with markers and
hover states disabled. -/
def createGapFixPoint (x : Int) (y : Option Int) : Point :=
  ⟨x, y, some PType.gapfix, some ⟨false, false⟩⟩

/-- `data.splice(index, 0, p)`: insert `p` at position `index`
(appending when `index ≥ data.length`, as `splice` does). -/
def spliceInsert (data : List Point) (index : Nat) (p : Point) : List Point :=
  data.take index ++ p :: data.drop index

/-- `insertGapFix(data, index, gapfix)`: skip when the target slot already
holds a `'gapfix'` point (the duplicate guard), otherwise splice the fix in.
Reading `data[index].type` of a nonexistent slot throws. -/
def insertGapFix (data : List Point) (index : Nat) (gapfix : Point) :
    Except Unit (List Point) :=
  match data[index]? with
  | none => .error ()
  | some p =>
    if p.type = some PType.gapfix then .ok data
    else .ok (spliceInsert data index gapfix)

/-- `data[iData].type = 'gap'` applied to a point. -/
def tagGap (p : Point) : Point :=
  ⟨p.x, p.y, some PType.gap, p.marker⟩

/-- Update `gaps[gi].ids.push(sid)`. -/
def pushGapId (gaps : List Gap) (gi : Nat) (sid : Int) : List Gap :=
  match gaps[gi]? with
  | none => gaps
  | some g => gaps.set gi ⟨g.ids ++ [sid], g.index, g.x, g.y⟩

/-- One gap discovery: `gapIds.indexOf(iData)`; on `-1` push the index and a
fresh record `{ids: [seriesId], index: iData, x: p.x, y: p.y}`, otherwise
push the series id onto the existing record. -/
def addGapRecord (acc : List Nat × List Gap) (sid : Int) (iData : Nat)
    (p : Point) : List Nat × List Gap :=
  match acc.1.findIdx? (· == iData) with
  | none => (acc.1 ++ [iData], acc.2 ++ [⟨[sid], iData, p.x, p.y⟩])
  | some gi => (acc.1, pushGapId acc.2 gi sid)

/-- The inner scan loop of `fixSeries` over one series' data, carrying the
running point index and the `(gapIds, gaps)` accumulator: every null-valued
point is tagged `'gap'` and recorded. -/
def collectGaps (sid : Int) :
    List Point → Nat → List Nat × List Gap → List Point × (List Nat × List Gap)
  | [], _, acc => ([], acc)
  | p :: rest, iData, acc =>
    if p.y = none then
      let acc' := addGapRecord acc sid iData p
      let r := collectGaps sid rest (iData + 1) acc'
      (tagGap p :: r.1, r.2)
    else
      let r := collectGaps sid rest (iData + 1) acc
      (p :: r.1, r.2)

/-- The outer scan loop of `fixSeries`:
`series[iSeries].id = typeof id !== 'undefined' ? id : iSeries` and then the
gap collection over that series' data. -/
def scanSeries :
    List Series → Nat → List Nat × List Gap → List Series × (List Nat × List Gap)
  | [], _, acc => ([], acc)
  | s :: rest, iSeries, acc =>
    let sid := s.id.getD (Int.ofNat iSeries)
    let r0 := collectGaps sid s.data 0 acc
    let r := scanSeries rest (iSeries + 1) r0.2
    (⟨some sid, r0.1⟩ :: r.1, r.2)

/-- `gaps.sort(sortByIndex).reverse()` — a stable sort ascending by `index`
followed by a reversal; `List.insertionSort` is such a stable sort. -/
def sortGapsDesc (gaps : List Gap) : List Gap :=
  (List.insertionSort (fun a b => a.index ≤ b.index) gaps).reverse

/-- One `insertGapFix` call of the fix loop body: on success the loop
continues with the new data, a thrown `TypeError` leaves the data unchanged
and is reported. -/
def tryInsert (data : List Point) (index : Nat) (p : Point) :
    List Point × Option Unit :=
  match insertGapFix data index p with
  | .error e => (data, some e)
  | .ok data1 => (data1, none)

/-- The successor side of the fix loop body:
`if (next) { nextValue = isGap ? null : next.y;
insertGapFix(data, gap.index + 1, createGapFixPoint(next.x - δ, nextValue)) }`. -/
def nextSideFix (d : Int) (data : List Point) (gap : Gap) (isGap : Bool)
    (next : Option Boundary) : List Point × Option Unit :=
  match next with
  | some nx =>
    tryInsert data (gap.index + 1)
      (createGapFixPoint (nx.x - d) (if isGap then none else some nx.y))
  | none => (data, none)

/-- The predecessor side of the fix loop body:
`if (prev) { prevValue = isGap ? null : prev.y;
insertGapFix(data, gap.index, createGapFixPoint(prev.x + δ, prevValue)) }`. -/
def prevSideFix (d : Int) (data1 : List Point) (gap : Gap) (isGap : Bool)
    (prev : Option Boundary) : List Point × Option Unit :=
  match prev with
  | some pv =>
    tryInsert data1 gap.index
      (createGapFixPoint (pv.x + d) (if isGap then none else some pv.y))
  | none => (data1, none)

/-- The body of the fix loop of `fixSeries` for one gap and one series' data:
compute `prev`, `next` and `isGap = (data[gap.index].y === null)`, then run
the successor-side insertion followed by the predecessor-side insertion.
Any thrown `TypeError` (from `getPrev` at a gap with index 0, or from an
out-of-range read) aborts the remaining work, leaving the data in its state
at the throw (second component `some ()`). -/
def fixGapStep (d : Int) (data : List Point) (gap : Gap) :
    List Point × Option Unit :=
  match getPrev data gap.index with
  | .error e => (data, some e)
  | .ok prev =>
    let next := getNext data gap.index
    match data[gap.index]? with
    | none => (data, some ())
    | some gp =>
      let isGap := gp.y == none
      let r1 := nextSideFix d data gap isGap next
      match r1.2 with
      | some _ => r1
      | none => prevSideFix d r1.1 gap isGap prev

/-- The fix loop over all collected gaps (already sorted descending) for one
series' data; an exception stops the loop and is propagated. -/
def fixData (d : Int) : List Gap → List Point → List Point × Option Unit
  | [], data => (data, none)
  | g :: rest, data =>
    match fixGapStep d data g with
    | (data', some e) => (data', some e)
    | (data', none) => fixData d rest data'

/-- The outer fix loop of `fixSeries` over each series; an exception stops
the loop, leaving the remaining series with their scan-pass state. -/
def fixPass (d : Int) (gaps : List Gap) : List Series → List Series × Option Unit
  | [] => ([], none)
  | s :: rest =>
    match fixData d gaps s.data with
    | (data', some e) => (⟨s.id, data'⟩ :: rest, some e)
    | (data', none) =>
      let r := fixPass d gaps rest
      (⟨s.id, data'⟩ :: r.1, r.2)

/-- `fixSeries(series)` of `part_000`: scan pass (tagging, id assignment,
gap collection), descending sort of the gaps, then the fix pass.  The result
is the mutated series list together with the optional thrown exception. -/
def fixSeries (d : Int) (series : List Series) : List Series × Option Unit :=
  let scanned := scanSeries series 0 ([], [])
  let gaps := sortGapsDesc scanned.2.2
  fixPass d gaps scanned.1

end V11

namespace V10

/-- `part_001` tags its inserted fix points with `type: 'gap'`
(the only tag this variant uses). -/
inductive PType where
  | gap
deriving DecidableEq, Repr

/-- The marker object of `part_001`'s `createGapPoint`. -/
structure Marker where
  enabled : Bool
  hoverEnabled : Bool
deriving DecidableEq, Repr

/-- A series point of `part_001`. -/
structure Point where
  x : Int
  y : Option Int
  type : Option PType
  marker : Option Marker
deriving DecidableEq, Repr

/-- A series `{id, data}` of `part_001`. -/
structure Series where
  id : Option Int
  data : List Point
deriving DecidableEq, Repr

/-- The `{x, y, i}` object returned by `part_001`'s `getPrev`/`getNext`
(immediate-neighbour policy: the point's own `y` may be null). -/
structure Nbr where
  x : Int
  y : Option Int
  i : Nat
deriving DecidableEq, Repr

/-- The fix record pushed by `part_001`'s scan:
`{id, index, x, xPrev: prev && prev.x, xNext: next && next.x, y: null}`.
`xPrev`/`xNext` are `null` exactly when the neighbour is missing. -/
structure FixRec where
  id : Int
  index : Nat
  x : Int
  xPrev : Option Int
  xNext : Option Int
  y : Option Int
deriving DecidableEq, Repr

/-- `getPrev(data, index)` of `part_001`: the point at `index - 1`
(regardless of its value), or `null` when there is none
(`data[-1]` is `undefined`, which is falsy, so no exception here). -/
def getPrev (data : List Point) : Nat → Option Nbr
  | 0 => none
  | j + 1 =>
    match data[j]? with
    | some p => some ⟨p.x, p.y, j⟩
    | none => none

/-- `getNext(data, index)` of `part_001`: the point at `index + 1`, or
`null` when there is none. -/
def getNext (data : List Point) (index : Nat) : Option Nbr :=
  match data[index + 1]? with
  | some p => some ⟨p.x, p.y, index + 1⟩
  | none => none

/-- `createGapPoint(x, y)` of `part_001`: a `'gap'`-typed point with
markers and hover states disabled. -/
def createGapPoint (x : Int) (y : Option Int) : Point :=
  ⟨x, y, some PType.gap, some ⟨false, false⟩⟩

/-- `data.splice(index, 0, p)` for `part_001`. -/
def spliceInsert (data : List Point) (index : Nat) (p : Point) : List Point :=
  data.take index ++ p :: data.drop index

/-- The scan loop of `part_001` over one series' data: for every null point
push a fix record; when a next point exists, jump the loop variable to it
(`iData = next.i`), so the loop resumes at `next.i + 1`.  The loop counter is
`iData`; the extra fuel argument only bounds the iteration count (the JS loop
runs at most `data.length` times since `iData` strictly increases). -/
def collectFix (sid : Int) (data : List Point) :
    Nat → Nat → List FixRec → List FixRec
  | 0, _, acc => acc
  | fuel + 1, iData, acc =>
    match data[iData]? with
    | none => acc
    | some p =>
      if p.y = none then
        let prev := getPrev data iData
        let next := getNext data iData
        let acc' := acc ++
          [⟨sid, iData, p.x, prev.map (·.x), next.map (·.x), none⟩]
        match next with
        | some nx => collectFix sid data fuel (nx.i + 1) acc'
        | none => collectFix sid data fuel (iData + 1) acc'
      else collectFix sid data fuel (iData + 1) acc

/-- The first loop of `part_001`'s `fixSeries`: assign positional ids and
collect the fix records across all series into one list. -/
def scanAll : List Series → Nat → List FixRec → List Series × List FixRec
  | [], _, acc => ([], acc)
  | s :: rest, iSeries, acc =>
    let sid := s.id.getD (Int.ofNat iSeries)
    let acc' := collectFix sid s.data (s.data.length + 1) 0 acc
    let r := scanAll rest (iSeries + 1) acc'
    (⟨some sid, s.data⟩ :: r.1, r.2)

/-- JavaScript array access with a possibly negative index:
`data[i]` is `undefined` for `i < 0` or `i ≥ data.length`. -/
def jsIndex (data : List Point) (i : Int) : Option Point :=
  if i < 0 then none else data[i.toNat]?

/-- JavaScript truthiness of `xPrev`/`xNext` (`null` and `0` are falsy). -/
def truthy : Option Int → Bool
  | none => false
  | some v => v != 0

/-- The value-replacement logic of `part_001`'s insert loop: for a series
that did not own the gap, carry the neighbouring point's value through the
fix when that neighbour sits exactly at the recorded boundary `x`;
otherwise the fix keeps the record's null. -/
def carriedValues (sid : Int) (data : List Point) (fix : FixRec) :
    Option Int × Option Int :=
  if sid ≠ fix.id then
    let seriePrevValue := jsIndex data ((fix.index : Int) - 1)
    let seriePostValue := jsIndex data ((fix.index : Int) + 1)
    let prevGapValue :=
      match seriePrevValue with
      | some p => if p.y ≠ none ∧ some p.x = fix.xPrev then p.y else fix.y
      | none => fix.y
    let postGapValue :=
      match seriePostValue with
      | some p => if p.y ≠ none ∧ some p.x = fix.xNext then p.y else fix.y
      | none => fix.y
    (prevGapValue, postGapValue)
  else (fix.y, fix.y)

/-- The insert loop of `part_001` for one series: for each (reversed) fix
record insert `createGapPoint(fix.xNext - 1, postGapValue)` at
`fix.index + 1` when `fix.xNext` is truthy, then
`createGapPoint(fix.xPrev + 1, prevGapValue)` at `fix.index` when
`fix.xPrev` is truthy.  The offset `1` is hard-coded in `part_001`. -/
def insertPass (sid : Int) : List FixRec → List Point → List Point
  | [], data => data
  | fix :: rest, data =>
    let vals := carriedValues sid data fix
    let data1 :=
      match fix.xNext with
      | some v =>
        if v ≠ 0 then spliceInsert data (fix.index + 1) (createGapPoint (v - 1) vals.2)
        else data
      | none => data
    let data2 :=
      match fix.xPrev with
      | some v =>
        if v ≠ 0 then spliceInsert data1 fix.index (createGapPoint (v + 1) vals.1)
        else data1
      | none => data1
    insertPass sid rest data2

/-- `fixSeries(series)` of `part_001`: collect fix records over all series,
reverse them ("start with the last"), then run the insert loop on every
series (whose `id` was set during the first loop). -/
def fixSeries (series : List Series) : List Series :=
  let scanned := scanAll series 0 []
  let fixPoints := scanned.2.reverse
  scanned.1.map (fun s => ⟨s.id, insertPass (s.id.getD 0) fixPoints s.data⟩)

end V10

namespace SGF1

/-- The first factory of `stackedSeriesGapFix.js` tags its inserted fix
points with `type: 'fix'`. -/
inductive PType where
  | fix
deriving DecidableEq, Repr

/-- The marker object of `createFixPoint`. -/
structure Marker where
  enabled : Bool
  hoverEnabled : Bool
deriving DecidableEq, Repr

/-- A series point of `stackedSeriesGapFix.js`. -/
structure Point where
  x : Int
  y : Option Int
  type : Option PType
  marker : Option Marker
deriving DecidableEq, Repr

/-- The `{x, i}` object returned by `getPreFix`/`getPostFix`. -/
structure PrePost where
  x : Int
  i : Nat
deriving DecidableEq, Repr

/-- The fix record `{index, x, xPre: pre && pre.x, xPost: post && post.x,
y: null}`. -/
structure FixRec where
  index : Nat
  x : Int
  xPre : Option Int
  xPost : Option Int
  y : Option Int
deriving DecidableEq, Repr

/-- `getPreFix(data, index)`: `while (--index >= 0)` walk down to the
nearest point with a non-null value, `null` when the array start is hit
first (the pre-decrement makes the walk stop cleanly at index `0`). -/
def getPreFix (data : List Point) : Nat → Option PrePost
  | 0 => none
  | j + 1 =>
    match data[j]? with
    | none => none
    | some p => if p.y ≠ none then some ⟨p.x, j⟩ else getPreFix data j

/-- The walk of `getPostFix` upward from a given index; the fuel only bounds
the iteration count (the JS loop runs at most `data.length` times). -/
def getPostFixAux (data : List Point) : Nat → Nat → Option PrePost
  | 0, _ => none
  | fuel + 1, i =>
    match data[i]? with
    | none => none
    | some p => if p.y ≠ none then some ⟨p.x, i⟩ else getPostFixAux data fuel (i + 1)

/-- `getPostFix(data, index)`: `while (++index < data.length)` walk up to the
nearest point with a non-null value, `null` when the array end is hit first. -/
def getPostFix (data : List Point) (index : Nat) : Option PrePost :=
  getPostFixAux data data.length (index + 1)

/-- `createFixPoint(x, y)`: a `'fix'`-typed point with markers and hover
states disabled. -/
def createFixPoint (x : Int) (y : Option Int) : Point :=
  ⟨x, y, some PType.fix, some ⟨false, false⟩⟩

/-- `data.splice(index, 0, p)` for `stackedSeriesGapFix.js`. -/
def spliceInsert (data : List Point) (index : Nat) (p : Point) : List Point :=
  data.take index ++ p :: data.drop index

/-- The scan loop of the first `fixSeries`: for every null point push a fix
record with the walked boundaries; when a post boundary exists, jump the loop
variable to it (`i = post.i`), so the loop resumes past the whole null run.
The fuel only bounds the iteration count. -/
def collectFix (data : List Point) : Nat → Nat → List FixRec → List FixRec
  | 0, _, acc => acc
  | fuel + 1, i, acc =>
    match data[i]? with
    | none => acc
    | some p =>
      if p.y = none then
        let pre := getPreFix data i
        let post := getPostFix data i
        let acc' := acc ++ [⟨i, p.x, pre.map (·.x), post.map (·.x), none⟩]
        match post with
        | some ps => collectFix data fuel (ps.i + 1) acc'
        | none => collectFix data fuel (i + 1) acc'
      else collectFix data fuel (i + 1) acc

/-- The insert loop of the first `fixSeries` (ascending, no reversal):
insert `createFixPoint(xPre + 1, null)` at `fix.index` when `fix.xPre` is
truthy, then `createFixPoint(xPost - 1, null)` at `fix.index + 2` when
`fix.xPost` is truthy.  The offset `1` is hard-coded. -/
def insertPass : List FixRec → List Point → List Point
  | [], data => data
  | fix :: rest, data =>
    let data1 :=
      match fix.xPre with
      | some v => if v ≠ 0 then spliceInsert data fix.index (createFixPoint (v + 1) fix.y) else data
      | none => data
    let data2 :=
      match fix.xPost with
      | some v => if v ≠ 0 then spliceInsert data1 (fix.index + 2) (createFixPoint (v - 1) fix.y) else data1
      | none => data1
    insertPass rest data2

/-- `fixSeries(series)` of the first factory of `stackedSeriesGapFix.js`,
which reads and mutates only `series.data`: collect the fix records of the
one series, then insert them in ascending order. -/
def fixSeries (data : List Point) : List Point :=
  insertPass (collectFix data (data.length + 1) 0 []) data

end SGF1

/-! ## Derived notions and concrete inputs used by the properties -/

/-- The caller-visible coordinates of a `V11` point. -/
def pxy (p : V11.Point) : Int × Option Int := (p.x, p.y)

/-- What the scan pass of `part_000` does to a single point: null-valued
points get the `'gap'` tag, all others are untouched. -/
def tagIfNull (p : V11.Point) : V11.Point :=
  if p.y = none then V11.tagGap p else p

/-- `true` for points that are not inserted `'gapfix'` points
(i.e. for the points the caller handed in, on untagged input). -/
def notGapfix (p : V11.Point) : Bool :=
  p.type != some V11.PType.gapfix

/-- The x-coordinates of a `V11` point list. -/
def xsOf (l : List V11.Point) : List Int := l.map V11.Point.x

/-- An input point for `part_000`: no `type`, no `marker` (a caller-built
`{x, y}` object). -/
def mkPt (x : Int) (y : Option Int) : V11.Point := ⟨x, y, none, none⟩

/-- An input point for `part_001`. -/
def mkPt10 (x : Int) (y : Option Int) : V10.Point := ⟨x, y, none, none⟩

/-- An input point for `stackedSeriesGapFix.js`. -/
def mkPtS (x : Int) (y : Option Int) : SGF1.Point := ⟨x, y, none, none⟩

/-- s1 of the documented example: x = 0..4, y = 1,1,1,1,1. -/
def c1s1 : V11.Series :=
  ⟨none, [mkPt 0 (some 1), mkPt 1 (some 1), mkPt 2 (some 1),
          mkPt 3 (some 1), mkPt 4 (some 1)]⟩

/-- s2 of the documented example: x = 0..4, y = 2,2,null,2,2. -/
def c1s2 : V11.Series :=
  ⟨none, [mkPt 0 (some 2), mkPt 1 (some 2), mkPt 2 none,
          mkPt 3 (some 2), mkPt 4 (some 2)]⟩

/-- s1 of the documented example, as `part_001` input. -/
def c1t1 : V10.Series :=
  ⟨none, [mkPt10 0 (some 1), mkPt10 1 (some 1), mkPt10 2 (some 1),
          mkPt10 3 (some 1), mkPt10 4 (some 1)]⟩

/-- s2 of the documented example, as `part_001` input. -/
def c1t2 : V10.Series :=
  ⟨none, [mkPt10 0 (some 2), mkPt10 1 (some 2), mkPt10 2 none,
          mkPt10 3 (some 2), mkPt10 4 (some 2)]⟩

/-- A series whose only gap sits at index 0 (no predecessor), successor at
x = 10000 with value 5. -/
def c4input : List V11.Series :=
  [⟨none, [mkPt 0 none, mkPt 10000 (some 5)]⟩]

/-- A single isolated gap between non-gap neighbours at x = 10 (value 5)
and x = 20 (value 5). -/
def c8data : List V11.Point :=
  [mkPt 10 (some 5), mkPt 15 none, mkPt 20 (some 5)]

/-- The same single-gap data as `stackedSeriesGapFix.js` input. -/
def c8dataS : List SGF1.Point :=
  [mkPtS 10 (some 5), mkPtS 15 none, mkPtS 20 (some 5)]

/-- A single-gap series with the source's spacing (δ = 1000 fits). -/
def c6input : List V11.Series :=
  [⟨none, [mkPt 0 (some 5), mkPt 5000 none, mkPt 10000 (some 5)]⟩]

/-- A series with a gap at index 0 and a second gap at index 2: processing
the index-2 gap mutates the series before the index-0 gap throws. -/
def c7input : List V11.Series :=
  [⟨none, [mkPt 0 none, mkPt 5000 (some 1), mkPt 10000 none,
           mkPt 15000 (some 1)]⟩]

/-- Strict monotonicity of x along a point list. -/
def StrictX (l : List V11.Point) : Prop :=
  List.Chain' (fun p q => p.x < q.x) l

/-- All consecutive x-distances exceed `d`. -/
def Spaced (d : Int) (l : List V11.Point) : Prop :=
  List.Chain' (fun p q => p.x + d < q.x) l

/-- The per-series facts the monotonicity argument uses about a scan-pass
output `orig`: a positive offset smaller than every consecutive x-distance,
and the scan-pass guarantee that every null-valued point carries the
`'gap'` tag. -/
def OrigOk (d : Int) (orig : List V11.Point) : Prop :=
  0 < d ∧ Spaced d orig ∧
    ∀ p ∈ orig, p.y = none → p.type = some V11.PType.gap

/-- Slot condition: the point at position `b` (just above the untouched
prefix) is either still the original point or an inserted `'gapfix'`. -/
def SlotOk (orig data : List V11.Point) (b : Nat) : Prop :=
  ∀ p, data[b]? = some p →
    orig[b]? = some p ∨ p.type = some V11.PType.gapfix

/-- Invariant of the per-series fix loop over descending gap indices: the
positions below `b` are the untouched originals, the whole list is strictly
monotone in x, and the slot at `b` is original-or-gapfix. -/
def Sliced (orig data : List V11.Point) (b : Nat) : Prop :=
  data.take b = orig.take b ∧ StrictX data ∧ SlotOk orig data b

/-- The accumulator invariant of the scan pass: `gapIds` mirrors the index
column of `gaps` and holds no duplicates. -/
def GapAcc (acc : List Nat × List V11.Gap) : Prop :=
  acc.1 = acc.2.map V11.Gap.index ∧ acc.1.Nodup

instance : IsTotal V11.Gap (fun a b => a.index ≤ b.index) :=
  ⟨fun a b => Nat.le_total a.index b.index⟩

instance : IsTrans V11.Gap (fun a b => a.index ≤ b.index) :=
  ⟨fun _ _ _ hab hbc => Nat.le_trans hab hbc⟩

/-- The gap records the scan pass produces for a run of null-valued points
starting at index `i`: one record per point, indices ascending, all from the
one series `sid`. -/
def gapRecordsOf (sid : Int) : Nat → List V11.Point → List V11.Gap
  | _, [] => []
  | i, p :: rest => ⟨[sid], i, p.x, p.y⟩ :: gapRecordsOf sid (i + 1) rest

/-! ## Concrete functional properties (C1, C4, C8, C9, C6, C7) -/

/-- C1: for s1 = [x=0..4, y=1,1,1,1,1] and s2 = [x=0..4, y=2,2,null,2,2]
with δ = 1, `fixSeries` terminates without error, inserts one fix point on
each side of the gap into *both* series, s1's two fix points carry the value
1, s2's two fix points are null, the fixes of both series sit at the same x
positions, and both series end with exactly 7 points.  This is checked for
`part_000` (where the fixes are the `'gapfix'`-typed points) and for
`part_001` (where the fixes are the `'gap'`-typed points). -/
theorem expand_asymmetric_series_example :
    ((V11.fixSeries 1 [c1s1, c1s2]).2 = none ∧
      (V11.fixSeries 1 [c1s1, c1s2]).1.map (fun s => s.data.length) = [7, 7] ∧
      (V11.fixSeries 1 [c1s1, c1s2]).1.map
          (fun s => (s.data.filter (fun p => p.type == some V11.PType.gapfix)).map pxy) =
        [[(2, some 1), (2, some 1)], [(2, none), (2, none)]]) ∧
    ((V10.fixSeries [c1t1, c1t2]).map (fun s => s.data.length) = [7, 7] ∧
      (V10.fixSeries [c1t1, c1t2]).map
          (fun s => (s.data.filter (fun p => p.type == some V10.PType.gap)).map
            (fun p => (p.x, p.y))) =
        [[(2, some 1), (2, some 1)], [(2, none), (2, none)]]) := by
  decide

/-- C4: on a series whose gap sits at index 0, `part_000`'s `fixSeries`
throws (`getPrev` reads `data[-1].type`, a property of `undefined`) before
inserting anything: the returned state carries the error, the gap point has
been tagged, and no fix point — not even the successor-side one — was
inserted. -/
theorem expand_throws_on_gap_at_index_zero :
    V11.fixSeries 1000 c4input =
      ([⟨some 0, [⟨0, none, some V11.PType.gap, none⟩, mkPt 10000 (some 5)]⟩],
        some ()) := by
  decide

/-- C8: for a single isolated gap shared by series A and B with non-gap
neighbours at x = 10 (value 5) and x = 20 (value 5), expanding with δ = 1
produces in both series fix points at x = 11 (null) and x = 19 (null), with
the original gap point retained at its x; likewise for the single-series
`stackedSeriesGapFix.js` variant applied to either series alone. -/
theorem expand_gap_symmetry_example :
    V11.fixSeries 1 [⟨none, c8data⟩, ⟨none, c8data⟩] =
      ([⟨some 0, [mkPt 10 (some 5), V11.createGapFixPoint 11 none,
          ⟨15, none, some V11.PType.gap, none⟩, V11.createGapFixPoint 19 none,
          mkPt 20 (some 5)]⟩,
        ⟨some 1, [mkPt 10 (some 5), V11.createGapFixPoint 11 none,
          ⟨15, none, some V11.PType.gap, none⟩, V11.createGapFixPoint 19 none,
          mkPt 20 (some 5)]⟩], none) ∧
    SGF1.fixSeries c8dataS =
      [mkPtS 10 (some 5), SGF1.createFixPoint 11 none, mkPtS 15 none,
        SGF1.createFixPoint 19 none, mkPtS 20 (some 5)] := by
  decide

/-- C9: expanding an empty series list is a no-op success for every offset:
no error, no mutation, the result is the empty list. -/
theorem expand_empty_noop (d : Int) : V11.fixSeries d [] = ([], none) := rfl

/-- C6 (counterexample): `expand` is not idempotent.  On a fixed single-gap
series a second `fixSeries` call re-tags the null `'gapfix'` points as
`'gap'` and inserts further fix points, so the result differs from the
first call's. -/
theorem expand_not_idempotent_cex :
    V11.fixSeries 1000 (V11.fixSeries 1000 c6input).1 ≠
      V11.fixSeries 1000 c6input := by
  decide

/-- C6 (amended): the duplicate guard of `insertGapFix` does skip an
insertion whenever the target slot still holds a `'gapfix'`-typed point —
but only then; a second `fixSeries` call re-tags those points as `'gap'`
first, so full idempotence of `expand` fails. -/
theorem insertGapFix_skips_gapfix_slot (data : List V11.Point) (i : Nat)
    (g p : V11.Point) (hp : data[i]? = some p)
    (hfix : p.type = some V11.PType.gapfix) :
    V11.insertGapFix data i g = .ok data := by
  unfold V11.insertGapFix
  rw [hp]
  simp [hfix]

/-- Witness for `insertGapFix_skips_gapfix_slot` at a concrete slot. -/
theorem insertGapFix_skips_gapfix_slot_witness :
    V11.insertGapFix [V11.createGapFixPoint 11 none] 0 (mkPt 3 none) =
      .ok [V11.createGapFixPoint 11 none] :=
  insertGapFix_skips_gapfix_slot _ 0 _ (V11.createGapFixPoint 11 none) rfl rfl

/-- C7 (counterexample): there is an input on which `expand` terminates with
an error *after* having modified the series: with a gap at index 0 and a
second gap at index 2, the index-2 gap is processed (two fix points inserted,
points tagged) before the index-0 gap throws. -/
theorem expand_error_after_partial_mutation_cex :
    (V11.fixSeries 1000 c7input).2.isSome = true ∧
      (V11.fixSeries 1000 c7input).1 ≠ c7input := by
  decide

/-- C7 (amended): errors are not confined to a read-only scan pass.  On
`c7input` the call fails, and the state it leaves behind is the scan-tagged
series with the two fix points of the already-processed index-2 gap — a
partially mutated series list. -/
theorem expand_partial_mutation_on_error :
    V11.fixSeries 1000 c7input =
      ([⟨some 0, [⟨0, none, some V11.PType.gap, none⟩, mkPt 5000 (some 1),
          V11.createGapFixPoint 6000 none, ⟨10000, none, some V11.PType.gap, none⟩,
          V11.createGapFixPoint 14000 none, mkPt 15000 (some 1)]⟩],
        some ()) := by
  decide

/-! ## Frame property: original points survive every call (C3) -/

theorem pxy_tagIfNull (p : V11.Point) : pxy (tagIfNull p) = pxy p := by
  unfold tagIfNull
  split <;> rfl

theorem v11_collectGaps_fst (sid : Int) (data : List V11.Point) :
    ∀ (i : Nat) (acc : List Nat × List V11.Gap),
      (V11.collectGaps sid data i acc).1 = data.map tagIfNull := by
  induction data with
  | nil => intro i acc; rfl
  | cons p rest ih =>
    intro i acc
    by_cases hy : p.y = none
    · simp [V11.collectGaps, hy, ih, tagIfNull]
    · simp [V11.collectGaps, hy, ih, tagIfNull]

theorem v11_spliceInsert_sublist (data : List V11.Point) (i : Nat)
    (p : V11.Point) :
    List.Sublist (data.map pxy) ((V11.spliceInsert data i p).map pxy) := by
  unfold V11.spliceInsert
  conv_lhs => rw [← List.take_append_drop i data]
  simp only [List.map_append, List.map_cons]
  exact List.Sublist.append_left (List.sublist_cons_self _ _) _

theorem v11_insertGapFix_sublist {data data' : List V11.Point} {i : Nat}
    {g : V11.Point} (h : V11.insertGapFix data i g = .ok data') :
    List.Sublist (data.map pxy) (data'.map pxy) := by
  unfold V11.insertGapFix at h
  split at h
  · exact absurd h (by simp)
  · split at h
    · injection h with h
      subst h
      exact List.Sublist.refl _
    · injection h with h
      subst h
      exact v11_spliceInsert_sublist _ _ _

theorem v11_tryInsert_sublist (data : List V11.Point) (i : Nat)
    (p : V11.Point) :
    List.Sublist (data.map pxy) ((V11.tryInsert data i p).1.map pxy) := by
  unfold V11.tryInsert
  split
  · exact List.Sublist.refl _
  · exact v11_insertGapFix_sublist (by assumption)

theorem v11_nextSideFix_sublist (d : Int) (data : List V11.Point)
    (gap : V11.Gap) (isGap : Bool) (next : Option V11.Boundary) :
    List.Sublist (data.map pxy)
      ((V11.nextSideFix d data gap isGap next).1.map pxy) := by
  unfold V11.nextSideFix
  cases next
  · exact List.Sublist.refl _
  · exact v11_tryInsert_sublist _ _ _

theorem v11_prevSideFix_sublist (d : Int) (data1 : List V11.Point)
    (gap : V11.Gap) (isGap : Bool) (prev : Option V11.Boundary) :
    List.Sublist (data1.map pxy)
      ((V11.prevSideFix d data1 gap isGap prev).1.map pxy) := by
  unfold V11.prevSideFix
  cases prev
  · exact List.Sublist.refl _
  · exact v11_tryInsert_sublist _ _ _

theorem v11_fixGapStep_sublist (d : Int) (data : List V11.Point)
    (g : V11.Gap) :
    List.Sublist (data.map pxy) ((V11.fixGapStep d data g).1.map pxy) := by
  unfold V11.fixGapStep
  split
  · exact List.Sublist.refl _
  · split
    · exact List.Sublist.refl _
    · dsimp only
      split
      · exact v11_nextSideFix_sublist d data g _ _
      · exact (v11_nextSideFix_sublist d data g _ _).trans
          (v11_prevSideFix_sublist d _ g _ _)

theorem v11_fixData_sublist (d : Int) (gaps : List V11.Gap) :
    ∀ (data : List V11.Point),
      List.Sublist (data.map pxy) ((V11.fixData d gaps data).1.map pxy) := by
  induction gaps with
  | nil => intro data; exact List.Sublist.refl _
  | cons g rest ih =>
    intro data
    unfold V11.fixData
    split
    · next heq =>
      have h1 := v11_fixGapStep_sublist d data g
      rw [heq] at h1
      exact h1
    · next heq =>
      have h1 := v11_fixGapStep_sublist d data g
      rw [heq] at h1
      exact h1.trans (ih _)

theorem v11_fixPass_forall₂ (d : Int) (gaps : List V11.Gap) :
    ∀ (sl : List V11.Series),
      List.Forall₂ (fun s s' => List.Sublist (s.data.map pxy) (s'.data.map pxy))
        sl (V11.fixPass d gaps sl).1 := by
  intro sl
  induction sl with
  | nil => exact List.Forall₂.nil
  | cons s rest ih =>
    unfold V11.fixPass
    split
    · next heq =>
      refine List.Forall₂.cons ?_ ?_
      · have h1 := v11_fixData_sublist d gaps s.data
        rw [heq] at h1
        exact h1
      · exact List.forall₂_same.2 fun x _ => List.Sublist.refl _
    · next heq =>
      refine List.Forall₂.cons ?_ ih
      have h1 := v11_fixData_sublist d gaps s.data
      rw [heq] at h1
      exact h1

theorem v11_scan_forall₂ :
    ∀ (sl : List V11.Series) (i : Nat) (acc : List Nat × List V11.Gap),
      List.Forall₂ (fun s s' => s.data.map pxy = s'.data.map pxy)
        sl (V11.scanSeries sl i acc).1 := by
  intro sl
  induction sl with
  | nil => intro i acc; exact List.Forall₂.nil
  | cons s rest ih =>
    intro i acc
    refine List.Forall₂.cons ?_ (ih _ _)
    show s.data.map pxy = (V11.collectGaps _ s.data 0 acc).1.map pxy
    rw [v11_collectGaps_fst, List.map_map]
    exact (List.map_congr_left fun p _ => (pxy_tagIfNull p).symm)

theorem v11_forall₂_eq_sublist :
    ∀ {l1 l2 l3 : List V11.Series},
      List.Forall₂ (fun s s' => s.data.map pxy = s'.data.map pxy) l1 l2 →
      List.Forall₂ (fun s s' => List.Sublist (s.data.map pxy) (s'.data.map pxy))
        l2 l3 →
      List.Forall₂ (fun s s' => List.Sublist (s.data.map pxy) (s'.data.map pxy))
        l1 l3 := by
  intro l1 l2 l3 h1
  induction h1 generalizing l3 with
  | nil =>
    intro h2
    cases h2
    exact List.Forall₂.nil
  | cons hab h1' ih =>
    intro h2
    cases h2 with
    | cons hbc h2' =>
      refine List.Forall₂.cons ?_ (ih h2')
      rw [hab]
      exact hbc

/-- C3: for every input and offset, every point that existed in a series
before the `fixSeries` call survives the call with the same x and the same y,
in the original order — the call only inserts points, it never overwrites,
reorders, or deletes an original point's coordinates.  This holds even when
the call aborts with an error. -/
theorem expand_never_mutates_original_points (d : Int)
    (series : List V11.Series) :
    List.Forall₂ (fun s s' => List.Sublist (s.data.map pxy) (s'.data.map pxy))
      series (V11.fixSeries d series).1 := by
  unfold V11.fixSeries
  exact v11_forall₂_eq_sublist (v11_scan_forall₂ series 0 ([], []))
    (v11_fixPass_forall₂ d _ _)

/-! ## Persistent mutations of the scan pass: tags and ids (C10) -/

theorem v11_scanSeries_get :
    ∀ (sl : List V11.Series) (i : Nat) (acc : List Nat × List V11.Gap)
      (k : Nat),
      ((V11.scanSeries sl i acc).1)[k]? =
        (sl[k]?).map
          (fun s => ⟨some (s.id.getD (Int.ofNat (i + k))), s.data.map tagIfNull⟩) := by
  intro sl
  induction sl with
  | nil => intro i acc k; rfl
  | cons s rest ih =>
    intro i acc k
    cases k with
    | zero =>
      simp only [V11.scanSeries, List.getElem?_cons_zero, Option.map_some',
        Nat.add_zero]
      rw [v11_collectGaps_fst]
    | succ k =>
      simp only [V11.scanSeries, List.getElem?_cons_succ]
      rw [ih]
      have h2 : i + 1 + k = i + (k + 1) := by omega
      rw [h2]

theorem v11_filter_spliceInsert (data : List V11.Point) (i : Nat)
    (p : V11.Point) (hp : notGapfix p = false) :
    (V11.spliceInsert data i p).filter notGapfix = data.filter notGapfix := by
  unfold V11.spliceInsert
  rw [List.filter_append, List.filter_cons, hp]
  simp only [Bool.false_eq_true, if_false]
  rw [← List.filter_append, List.take_append_drop]

theorem v11_insertGapFix_filter {data data' : List V11.Point} {i : Nat}
    {g : V11.Point} (hg : notGapfix g = false)
    (h : V11.insertGapFix data i g = .ok data') :
    data'.filter notGapfix = data.filter notGapfix := by
  unfold V11.insertGapFix at h
  split at h
  · exact absurd h (by simp)
  · split at h
    · injection h with h
      subst h
      rfl
    · injection h with h
      subst h
      exact v11_filter_spliceInsert _ _ _ hg

theorem v11_tryInsert_filter (data : List V11.Point) (i : Nat)
    (p : V11.Point) (hp : notGapfix p = false) :
    (V11.tryInsert data i p).1.filter notGapfix = data.filter notGapfix := by
  unfold V11.tryInsert
  split
  · rfl
  · exact v11_insertGapFix_filter hp (by assumption)

theorem notGapfix_createGapFixPoint (x : Int) (y : Option Int) :
    notGapfix (V11.createGapFixPoint x y) = false := rfl

theorem v11_nextSideFix_filter (d : Int) (data : List V11.Point)
    (gap : V11.Gap) (isGap : Bool) (next : Option V11.Boundary) :
    (V11.nextSideFix d data gap isGap next).1.filter notGapfix =
      data.filter notGapfix := by
  unfold V11.nextSideFix
  cases next
  · rfl
  · exact v11_tryInsert_filter _ _ _ (notGapfix_createGapFixPoint _ _)

theorem v11_prevSideFix_filter (d : Int) (data1 : List V11.Point)
    (gap : V11.Gap) (isGap : Bool) (prev : Option V11.Boundary) :
    (V11.prevSideFix d data1 gap isGap prev).1.filter notGapfix =
      data1.filter notGapfix := by
  unfold V11.prevSideFix
  cases prev
  · rfl
  · exact v11_tryInsert_filter _ _ _ (notGapfix_createGapFixPoint _ _)

theorem v11_fixGapStep_filter (d : Int) (data : List V11.Point)
    (g : V11.Gap) :
    (V11.fixGapStep d data g).1.filter notGapfix = data.filter notGapfix := by
  unfold V11.fixGapStep
  split
  · rfl
  · split
    · rfl
    · dsimp only
      split
      · exact v11_nextSideFix_filter d data g _ _
      · exact (v11_prevSideFix_filter d _ g _ _).trans
          (v11_nextSideFix_filter d data g _ _)

theorem v11_fixData_filter (d : Int) (gaps : List V11.Gap) :
    ∀ (data : List V11.Point),
      (V11.fixData d gaps data).1.filter notGapfix = data.filter notGapfix := by
  induction gaps with
  | nil => intro data; rfl
  | cons g rest ih =>
    intro data
    unfold V11.fixData
    split
    · next heq =>
      have h1 := v11_fixGapStep_filter d data g
      rw [heq] at h1
      exact h1
    · next heq =>
      have h1 := v11_fixGapStep_filter d data g
      rw [heq] at h1
      exact (ih _).trans h1

theorem v11_fixPass_forall₂_filter (d : Int) (gaps : List V11.Gap) :
    ∀ (sl : List V11.Series),
      List.Forall₂
        (fun s s' => s'.id = s.id ∧
          s'.data.filter notGapfix = s.data.filter notGapfix)
        sl (V11.fixPass d gaps sl).1 := by
  intro sl
  induction sl with
  | nil => exact List.Forall₂.nil
  | cons s rest ih =>
    unfold V11.fixPass
    split
    · next heq =>
      refine List.Forall₂.cons ⟨rfl, ?_⟩ ?_
      · have h1 := v11_fixData_filter d gaps s.data
        rw [heq] at h1
        exact h1
      · exact List.forall₂_same.2 fun x _ => ⟨rfl, rfl⟩
    · next heq =>
      refine List.Forall₂.cons ⟨rfl, ?_⟩ ih
      have h1 := v11_fixData_filter d gaps s.data
      rw [heq] at h1
      exact h1

theorem forall₂_get_some {R : V11.Series → V11.Series → Prop} :
    ∀ {l1 l2 : List V11.Series}, List.Forall₂ R l1 l2 →
      ∀ {k : Nat} {a : V11.Series}, l1[k]? = some a →
        ∃ b, l2[k]? = some b ∧ R a b := by
  intro l1 l2 h
  induction h with
  | nil => intro k a ha; simp at ha
  | cons hab h' ih =>
    intro k a ha
    cases k with
    | zero =>
      rw [List.getElem?_cons_zero] at ha
      obtain rfl := Option.some.inj ha
      exact ⟨_, List.getElem?_cons_zero, hab⟩
    | succ k =>
      rw [List.getElem?_cons_succ] at ha
      obtain ⟨b, hb, hr⟩ := ih ha
      refine ⟨b, ?_, hr⟩
      rw [List.getElem?_cons_succ]
      exact hb

/-- C10: `fixSeries` mutates its input beyond inserting points, and the
mutations persist in the returned state: every original point whose y is
null carries `type = 'gap'` afterwards (the non-inserted points of the
output are exactly the input points with nulls retagged), and every series
that arrived without an id has its id set to its position in the input list
(a series that arrived with an id keeps it). -/
theorem expand_mutates_tags_and_ids (d : Int) (series : List V11.Series)
    (htype : ∀ s ∈ series, ∀ p ∈ s.data, p.type ≠ some V11.PType.gapfix) :
    ∀ k (hk : k < series.length),
      ∃ s', ((V11.fixSeries d series).1)[k]? = some s' ∧
        s'.id = some ((series[k]).id.getD (Int.ofNat k)) ∧
        s'.data.filter notGapfix = (series[k]).data.map tagIfNull := by
  intro k hk
  have hsk : series[k]? = some (series[k]) := List.getElem?_eq_getElem hk
  have hscan := v11_scanSeries_get series 0 ([], []) k
  rw [hsk] at hscan
  have hpass := v11_fixPass_forall₂_filter d
    (V11.sortGapsDesc (V11.scanSeries series 0 ([], [])).2.2)
    (V11.scanSeries series 0 ([], [])).1
  obtain ⟨s', hs', hid, hfil⟩ := forall₂_get_some hpass hscan
  refine ⟨s', hs', ?_, ?_⟩
  · rw [hid]
    show some ((series[k]).id.getD (Int.ofNat (0 + k))) =
      some ((series[k]).id.getD (Int.ofNat k))
    rw [Nat.zero_add]
  · rw [hfil]
    show List.filter notGapfix (List.map tagIfNull (series[k]).data) = _
    rw [List.filter_eq_self.mpr]
    intro p hp
    obtain ⟨q, hq, rfl⟩ := List.mem_map.mp hp
    have hqt := htype (series[k]) (List.getElem_mem hk) q hq
    unfold tagIfNull notGapfix V11.tagGap
    split
    · rfl
    · simpa using hqt

/-- Witness for `expand_mutates_tags_and_ids` on a concrete gapped input. -/
theorem expand_mutates_tags_and_ids_witness :
    (∀ s ∈ c4input, ∀ p ∈ s.data, p.type ≠ some V11.PType.gapfix) ∧
      0 < c4input.length ∧
      (∃ s', ((V11.fixSeries 1000 c4input).1)[0]? = some s' ∧
        s'.id = some ((c4input[0]).id.getD (Int.ofNat 0)) ∧
        s'.data.filter notGapfix = (c4input[0]).data.map tagIfNull) :=
  ⟨by decide, by decide,
    expand_mutates_tags_and_ids 1000 c4input (by decide) 0 (by decide)⟩

/-! ## Monotonicity after expand (C2): helper lemmas -/

theorem take_eq_getElem? {α : Type} {l1 l2 : List α} {b k : Nat}
    (h : l1.take b = l2.take b) (hk : k < b) : l1[k]? = l2[k]? := by
  have h1 : (l1.take b)[k]? = l1[k]? := by
    rw [List.getElem?_take]
    exact if_pos hk
  have h2 : (l2.take b)[k]? = l2[k]? := by
    rw [List.getElem?_take]
    exact if_pos hk
  rw [← h1, ← h2, h]

theorem take_eq_mono {α : Type} {l1 l2 : List α} {b b' : Nat}
    (h : l1.take b = l2.take b) (hb : b' ≤ b) : l1.take b' = l2.take b' := by
  have h1 : (l1.take b).take b' = l1.take b' := by
    rw [List.take_take, inf_eq_left.mpr hb]
  have h2 : (l2.take b).take b' = l2.take b' := by
    rw [List.take_take, inf_eq_left.mpr hb]
  rw [← h1, ← h2, h]

theorem chain'_of_getElem? {α : Type} {R : α → α → Prop} {l : List α} {i : Nat}
    {a b : α} (hc : List.Chain' R l) (ha : l[i]? = some a)
    (hb : l[i+1]? = some b) : R a b := by
  have hbl : i + 1 < l.length := (List.getElem?_eq_some_iff.mp hb).1
  have hal : i < l.length := by omega
  have h := List.chain'_iff_get.mp hc i (by omega)
  rw [List.get_eq_getElem, List.get_eq_getElem] at h
  rw [List.getElem?_eq_getElem hal] at ha
  rw [List.getElem?_eq_getElem hbl] at hb
  obtain rfl := Option.some.inj ha
  obtain rfl := Option.some.inj hb
  exact h

theorem getLast?_take_of_lt {α : Type} {l : List α} {j : Nat}
    (hj : j < l.length) : (l.take (j+1)).getLast? = l[j]? := by
  rw [List.getLast?_eq_getElem?]
  have hlen : (l.take (j+1)).length = j + 1 := by
    rw [List.length_take]
    omega
  rw [hlen]
  simp only [Nat.add_sub_cancel]
  rw [List.getElem?_take]
  exact if_pos (Nat.lt_succ_self j)

theorem tagIfNull_x (p : V11.Point) : (tagIfNull p).x = p.x := by
  unfold tagIfNull
  split <;> rfl

theorem tagIfNull_tag (p : V11.Point) (h : (tagIfNull p).y = none) :
    (tagIfNull p).type = some V11.PType.gap := by
  unfold tagIfNull at h ⊢
  by_cases hy : p.y = none
  · rw [if_pos hy]
    rfl
  · rw [if_neg hy] at h
    exact absurd h hy

theorem v11_sliced_mono {orig data : List V11.Point} {b b' : Nat}
    (h : Sliced orig data b) (hb : b' ≤ b) : Sliced orig data b' := by
  obtain ⟨htake, hchain, hslot⟩ := h
  rcases Nat.eq_or_lt_of_le hb with rfl | hlt
  · exact ⟨htake, hchain, hslot⟩
  · refine ⟨take_eq_mono htake hb, hchain, ?_⟩
    intro p hp
    left
    rw [← take_eq_getElem? htake hlt]
    exact hp

theorem v11_spliceInsert_take {data : List V11.Point} {n b : Nat}
    {v : V11.Point} (hb : b ≤ n) (hn : n ≤ data.length) :
    (V11.spliceInsert data n v).take b = data.take b := by
  unfold V11.spliceInsert
  rw [List.take_append_of_le_length (by rw [List.length_take]; omega),
    List.take_take, inf_eq_left.mpr hb]

theorem v11_spliceInsert_getElem?_self {data : List V11.Point} {n : Nat}
    {v : V11.Point} (hn : n ≤ data.length) :
    (V11.spliceInsert data n v)[n]? = some v := by
  unfold V11.spliceInsert
  have hlen : (data.take n).length = n := by
    rw [List.length_take]
    omega
  rw [List.getElem?_append_right (by omega), hlen, Nat.sub_self]
  exact List.getElem?_cons_zero

theorem v11_spliceInsert_getElem?_lt {data : List V11.Point} {n k : Nat}
    {v : V11.Point} (hk : k < n) (hn : n ≤ data.length) :
    (V11.spliceInsert data n v)[k]? = data[k]? := by
  unfold V11.spliceInsert
  rw [List.getElem?_append_left (by rw [List.length_take]; omega),
    List.getElem?_take]
  exact if_pos hk

theorem v11_chain_spliceInsert {data : List V11.Point} {n : Nat}
    {v : V11.Point} (hc : StrictX data)
    (hl : ∀ p ∈ (data.take n).getLast?, p.x < v.x)
    (hr : ∀ p ∈ (data.drop n).head?, v.x < p.x) :
    StrictX (V11.spliceInsert data n v) := by
  unfold V11.spliceInsert StrictX
  rw [List.chain'_append]
  have hpre : List.Chain' (fun p q : V11.Point => p.x < q.x) (data.take n) :=
    List.Chain'.prefix hc (List.take_prefix n data)
  refine ⟨hpre, ?_, ?_⟩
  · rw [List.chain'_cons']
    exact ⟨hr, hc.suffix (List.drop_suffix n data)⟩
  · intro p hp q hq
    rw [List.head?_cons, Option.mem_def] at hq
    obtain rfl := Option.some.inj hq
    exact hl p hp

theorem v11_tryInsert_eq (data : List V11.Point) (i : Nat) (g : V11.Point) :
    (V11.tryInsert data i g).1 = data ∨
      (∃ p, data[i]? = some p ∧ p.type ≠ some V11.PType.gapfix ∧
        (V11.tryInsert data i g).1 = V11.spliceInsert data i g) := by
  unfold V11.tryInsert V11.insertGapFix
  cases h : data[i]? with
  | none => exact Or.inl rfl
  | some p =>
    dsimp only
    by_cases hp : p.type = some V11.PType.gapfix
    · rw [if_pos hp]
      exact Or.inl rfl
    · rw [if_neg hp]
      exact Or.inr ⟨p, rfl, hp, rfl⟩

theorem v11_getPrev_ok {orig data : List V11.Point} {gi : Nat}
    {prev : Option V11.Boundary}
    (htag : ∀ p ∈ orig, p.y = none → p.type = some V11.PType.gap)
    (htake : data.take (gi + 1) = orig.take (gi + 1))
    (h : V11.getPrev data gi = .ok prev) :
    prev = none ∨
      ∃ j pj yv, gi = j + 1 ∧ orig[j]? = some pj ∧ pj.y = some yv ∧
        prev = some ⟨pj.x, yv⟩ := by
  cases gi with
  | zero => exact absurd h (by simp [V11.getPrev])
  | succ j =>
    unfold V11.getPrev at h
    have hj : data[j]? = orig[j]? := take_eq_getElem? htake (by omega)
    rw [hj] at h
    cases ho : orig[j]? with
    | none =>
      rw [ho] at h
      exact absurd h (by simp)
    | some pj =>
      rw [ho] at h
      dsimp only at h
      by_cases ht : pj.type = some V11.PType.gap
      · rw [if_pos ht] at h
        left
        exact (Except.ok.inj h).symm
      · rw [if_neg ht] at h
        cases hy : pj.y with
        | some yv =>
          rw [hy] at h
          exact Or.inr ⟨j, pj, yv, rfl, ho, hy, (Except.ok.inj h).symm⟩
        | none =>
          exact absurd (htag pj (List.getElem?_mem ho) hy) ht

theorem v11_nextSideFix_sliced {d : Int} {orig : List V11.Point}
    (ho : OrigOk d orig) (g : V11.Gap) (data : List V11.Point) (isGap : Bool)
    (hs : Sliced orig data (g.index + 1)) :
    Sliced orig
      (V11.nextSideFix d data g isGap (V11.getNext data g.index)).1
      (g.index + 1) := by
  obtain ⟨hd, hsp, htag⟩ := ho
  obtain ⟨htake, hchain, hslot⟩ := hs
  cases hn : V11.getNext data g.index with
  | none => exact ⟨htake, hchain, hslot⟩
  | some nx =>
    show Sliced orig (V11.tryInsert data (g.index + 1) _).1 _
    rcases v11_tryInsert_eq data (g.index + 1)
        (V11.createGapFixPoint (nx.x - d) (if isGap then none else some nx.y))
      with heq | ⟨q, hq, hqf, heq⟩
    · rw [heq]
      exact ⟨htake, hchain, hslot⟩
    · rw [heq]
      -- identify the slot point q with the original successor and nx with q
      have hlen1 : g.index + 1 < data.length :=
        (List.getElem?_eq_some_iff.mp hq).1
      have hqorig : orig[g.index + 1]? = some q := by
        rcases hslot q hq with h | h
        · exact h
        · exact absurd h hqf
      have hqq : data[g.index + 1] = q := by
        have h0 := List.getElem?_eq_getElem hlen1
        rw [hq] at h0
        exact (Option.some.inj h0).symm
      have hdrop : data.drop (g.index + 1) = q :: data.drop (g.index + 1 + 1) :=
        by
          have h0 := List.drop_eq_getElem_cons hlen1
          rw [hqq] at h0
          exact h0
      have hq_notgap : q.type ≠ some V11.PType.gap := by
        intro hgap
        rw [V11.getNext, hdrop] at hn
        unfold V11.getNextAux at hn
        rw [if_pos hgap] at hn
        exact absurd hn (by simp)
      have hqy : q.y = some nx.y ∧ q.x = nx.x := by
        cases hy : q.y with
        | none =>
          exact absurd (htag q (List.getElem?_mem hqorig) hy) hq_notgap
        | some yv =>
          rw [V11.getNext, hdrop] at hn
          unfold V11.getNextAux at hn
          rw [if_neg hq_notgap, hy] at hn
          obtain rfl := Option.some.inj hn
          exact ⟨rfl, rfl⟩
      -- the original point below the insertion position
      have hlen0 : g.index < data.length := by omega
      have hgp : data[g.index]? = orig[g.index]? :=
        take_eq_getElem? htake (by omega)
      have hgpsome : orig[g.index]? = some (data[g.index]) := by
        rw [← hgp]
        exact List.getElem?_eq_getElem hlen0
      have hsp' : List.Chain' (fun p q : V11.Point => p.x + d < q.x) orig :=
        hsp
      have hspace0 := chain'_of_getElem? hsp' hgpsome hqorig
      have hspace2 : (data[g.index]).x + d < q.x := hspace0
      refine ⟨?_, ?_, ?_⟩
      · rw [v11_spliceInsert_take (Nat.le_refl _) (by omega)]
        exact htake
      · refine v11_chain_spliceInsert hchain ?_ ?_
        · intro p hp
          rw [Option.mem_def, getLast?_take_of_lt hlen0,
            List.getElem?_eq_getElem hlen0] at hp
          obtain rfl := Option.some.inj hp
          show (data[g.index]).x < nx.x - d
          rw [← hqy.2]
          omega
        · intro p hp
          rw [Option.mem_def, List.head?_drop, hq] at hp
          obtain rfl := Option.some.inj hp
          show nx.x - d < q.x
          rw [← hqy.2]
          omega
      · intro p hp
        rw [v11_spliceInsert_getElem?_self (by omega)] at hp
        obtain rfl := Option.some.inj hp
        exact Or.inr rfl

theorem v11_spaced_strictX {d : Int} (hd : 0 < d) {l : List V11.Point}
    (h : Spaced d l) : StrictX l := by
  have h' : List.Chain' (fun p q : V11.Point => p.x + d < q.x) l := h
  exact h'.imp fun hab => by omega

theorem v11_prevSideFix_sliced {d : Int} {orig : List V11.Point}
    (ho : OrigOk d orig) (g : V11.Gap) (data data1 : List V11.Point)
    (isGap : Bool) {prev : Option V11.Boundary}
    (hp : V11.getPrev data g.index = .ok prev)
    (htake0 : data.take (g.index + 1) = orig.take (g.index + 1))
    (hs1 : Sliced orig data1 (g.index + 1)) :
    ∀ b, b ≤ g.index →
      Sliced orig (V11.prevSideFix d data1 g isGap prev).1 b := by
  intro b hb
  obtain ⟨hd, hsp, htag⟩ := ho
  obtain ⟨htake, hchain, hslot⟩ := hs1
  cases prev with
  | none => exact v11_sliced_mono ⟨htake, hchain, hslot⟩ (by omega)
  | some pv =>
    show Sliced orig (V11.tryInsert data1 g.index _).1 b
    rcases v11_tryInsert_eq data1 g.index
        (V11.createGapFixPoint (pv.x + d) (if isGap then none else some pv.y))
      with heq | ⟨w, hw, hwf, heq⟩
    · rw [heq]
      exact v11_sliced_mono ⟨htake, hchain, hslot⟩ (by omega)
    · rw [heq]
      -- analyse what getPrev returned on the pre-insertion data
      rcases v11_getPrev_ok htag htake0 hp with hnone | ⟨j, pj, yv, hgi, hoj, hyj, hpv⟩
      · exact absurd hnone (by simp)
      · obtain rfl := Option.some.inj hpv
        -- the slot point w is the original gap point at g.index
        have hlenw : g.index < data1.length :=
          (List.getElem?_eq_some_iff.mp hw).1
        have hworig : orig[g.index]? = some w := by
          rw [← take_eq_getElem? htake (by omega)]
          exact hw
        -- spacing between the predecessor original and the gap original
        have hsp' : List.Chain' (fun p q : V11.Point => p.x + d < q.x) orig :=
          hsp
        have hspace0 := chain'_of_getElem? hsp' hoj (by rw [← hgi]; exact hworig)
        have hspace2 : pj.x + d < w.x := hspace0
        refine ⟨?_, ?_, ?_⟩
        · rw [v11_spliceInsert_take (by omega) (by omega)]
          exact take_eq_mono htake (by omega)
        · refine v11_chain_spliceInsert hchain ?_ ?_
          · intro p hpm
            rw [Option.mem_def, hgi, getLast?_take_of_lt (by omega),
              take_eq_getElem? htake (by omega), hoj] at hpm
            obtain rfl := Option.some.inj hpm
            show pj.x < pj.x + d
            omega
          · intro p hpm
            rw [Option.mem_def, List.head?_drop, hw] at hpm
            obtain rfl := Option.some.inj hpm
            show pj.x + d < w.x
            exact hspace2
        · intro p hpm
          rcases Nat.eq_or_lt_of_le hb with rfl | hblt
          · rw [v11_spliceInsert_getElem?_self (by omega)] at hpm
            obtain rfl := Option.some.inj hpm
            exact Or.inr rfl
          · rw [v11_spliceInsert_getElem?_lt hblt (by omega)] at hpm
            left
            rw [← take_eq_getElem? htake (by omega)]
            exact hpm

theorem v11_fixGapStep_sliced {d : Int} {orig : List V11.Point}
    (ho : OrigOk d orig) (g : V11.Gap) (data : List V11.Point)
    (hs : Sliced orig data (g.index + 1)) :
    ∀ b, b ≤ g.index → Sliced orig (V11.fixGapStep d data g).1 b := by
  intro b hb
  unfold V11.fixGapStep
  cases hp : V11.getPrev data g.index with
  | error e => exact v11_sliced_mono hs (by omega)
  | ok prev =>
    cases hgi : data[g.index]? with
    | none => exact v11_sliced_mono hs (by omega)
    | some gp =>
      dsimp only
      have hs1 := v11_nextSideFix_sliced ho g data (gp.y == none) hs
      cases hr2 : (V11.nextSideFix d data g (gp.y == none)
          (V11.getNext data g.index)).2 with
      | some e => exact v11_sliced_mono hs1 (by omega)
      | none => exact v11_prevSideFix_sliced ho g data _ (gp.y == none) hp hs.1 hs1 b hb

theorem v11_fixData_sliced {d : Int} {orig : List V11.Point}
    (ho : OrigOk d orig) :
    ∀ (gaps : List V11.Gap) (data : List V11.Point) (b : Nat),
      gaps.Pairwise (fun a g => g.index < a.index) →
      (∀ g ∈ gaps, g.index < b) →
      Sliced orig data b →
      StrictX (V11.fixData d gaps data).1 := by
  intro gaps
  induction gaps with
  | nil =>
    intro data b _ _ hs
    exact hs.2.1
  | cons g rest ih =>
    intro data b hdesc hlt hs
    unfold V11.fixData
    have hsg : Sliced orig data (g.index + 1) :=
      v11_sliced_mono hs (hlt g (List.mem_cons_self g rest))
    cases hstep : V11.fixGapStep d data g with
    | mk data' oe =>
      have hstep1 : ∀ b', b' ≤ g.index → Sliced orig data' b' := by
        intro b' hb'
        have h := v11_fixGapStep_sliced ho g data hsg b' hb'
        rw [hstep] at h
        exact h
      cases oe with
      | some e => exact (hstep1 0 (Nat.zero_le _)).2.1
      | none =>
        exact ih data' g.index (List.pairwise_cons.mp hdesc).2
          (fun g' hg' => (List.pairwise_cons.mp hdesc).1 g' hg')
          (hstep1 g.index (Nat.le_refl _))

theorem v11_fixData_chain {d : Int} {orig : List V11.Point}
    {gaps : List V11.Gap} (ho : OrigOk d orig)
    (hdesc : gaps.Pairwise (fun a g => g.index < a.index)) :
    StrictX (V11.fixData d gaps orig).1 := by
  cases gaps with
  | nil => exact v11_spaced_strictX ho.1 ho.2.1
  | cons g rest =>
    refine v11_fixData_sliced ho (g :: rest) orig (g.index + 1) hdesc ?_ ?_
    · intro g' hg'
      rcases List.mem_cons.mp hg' with rfl | h
      · omega
      · have := (List.pairwise_cons.mp hdesc).1 g' h
        omega
    · exact ⟨rfl, v11_spaced_strictX ho.1 ho.2.1, fun p hp => Or.inl hp⟩

theorem set_getElem?_eq_self {α : Type} :
    ∀ (l : List α) (i : Nat) {v : α}, l[i]? = some v → l.set i v = l
  | [], _, _, h => by simp at h
  | a :: t, 0, v, h => by
    rw [List.getElem?_cons_zero] at h
    obtain rfl := Option.some.inj h
    rfl
  | a :: t, i + 1, v, h => by
    rw [List.getElem?_cons_succ] at h
    show a :: t.set i v = a :: t
    rw [set_getElem?_eq_self t i h]

theorem v11_pushGapId_map_index (gaps : List V11.Gap) (gi : Nat) (sid : Int) :
    (V11.pushGapId gaps gi sid).map V11.Gap.index = gaps.map V11.Gap.index := by
  unfold V11.pushGapId
  cases h : gaps[gi]? with
  | none => rfl
  | some g =>
    rw [List.map_set]
    apply set_getElem?_eq_self
    rw [List.getElem?_map, h]
    rfl

theorem v11_addGapRecord_gapAcc {acc : List Nat × List V11.Gap} (sid : Int)
    (iData : Nat) (p : V11.Point) (h : GapAcc acc) :
    GapAcc (V11.addGapRecord acc sid iData p) := by
  obtain ⟨heq, hnd⟩ := h
  unfold V11.addGapRecord
  cases hf : acc.1.findIdx? (· == iData) with
  | none =>
    refine ⟨?_, ?_⟩
    · rw [List.map_append, heq]
      rfl
    · rw [List.nodup_append]
      refine ⟨hnd, List.nodup_singleton _, ?_⟩
      intro a ha hmem
      rw [List.mem_singleton] at hmem
      subst hmem
      have := List.findIdx?_eq_none_iff.mp hf a ha
      simp at this
  | some gi => exact ⟨by rw [v11_pushGapId_map_index]; exact heq, hnd⟩

theorem v11_collectGaps_gapAcc (sid : Int) (data : List V11.Point) :
    ∀ (i : Nat) (acc : List Nat × List V11.Gap), GapAcc acc →
      GapAcc (V11.collectGaps sid data i acc).2 := by
  induction data with
  | nil => intro i acc h; exact h
  | cons p rest ih =>
    intro i acc h
    by_cases hy : p.y = none
    · simp only [V11.collectGaps, if_pos hy]
      exact ih (i + 1) _ (v11_addGapRecord_gapAcc sid i p h)
    · simp only [V11.collectGaps, if_neg hy]
      exact ih (i + 1) acc h

theorem v11_scanSeries_gapAcc :
    ∀ (sl : List V11.Series) (i : Nat) (acc : List Nat × List V11.Gap),
      GapAcc acc → GapAcc (V11.scanSeries sl i acc).2 := by
  intro sl
  induction sl with
  | nil => intro i acc h; exact h
  | cons s rest ih =>
    intro i acc h
    exact ih (i + 1) _ (v11_collectGaps_gapAcc _ s.data 0 acc h)

theorem v11_sortGapsDesc_pairwise {gaps : List V11.Gap}
    (hnd : (gaps.map V11.Gap.index).Nodup) :
    (V11.sortGapsDesc gaps).Pairwise (fun a g => g.index < a.index) := by
  unfold V11.sortGapsDesc
  have hsorted0 : List.Sorted (fun a b : V11.Gap => a.index ≤ b.index)
      (List.insertionSort (fun a b => a.index ≤ b.index) gaps) :=
    List.sorted_insertionSort (fun a b => a.index ≤ b.index) gaps
  have hsorted : (List.insertionSort (fun a b => a.index ≤ b.index) gaps).Pairwise
      (fun a b => a.index ≤ b.index) := hsorted0
  have hperm : List.Perm
      (List.insertionSort (fun a b => a.index ≤ b.index) gaps) gaps :=
    List.perm_insertionSort (fun a b => a.index ≤ b.index) gaps
  have hnd2 : ((List.insertionSort (fun a b => a.index ≤ b.index) gaps).map
      V11.Gap.index).Nodup :=
    ((hperm.map V11.Gap.index).nodup_iff).mpr hnd
  have hne : (List.insertionSort (fun a b => a.index ≤ b.index) gaps).Pairwise
      (fun a b => a.index ≠ b.index) :=
    List.pairwise_map.mp hnd2
  rw [List.pairwise_reverse]
  exact (hsorted.and hne).imp fun h => Nat.lt_of_le_of_ne h.1 h.2

theorem v11_scanSeries_mem {s' : V11.Series} :
    ∀ {sl : List V11.Series} {i : Nat} {acc : List Nat × List V11.Gap},
      s' ∈ (V11.scanSeries sl i acc).1 →
      ∃ s ∈ sl, s'.data = s.data.map tagIfNull := by
  intro sl
  induction sl with
  | nil =>
    intro i acc h
    simp [V11.scanSeries] at h
  | cons s rest ih =>
    intro i acc h
    rcases List.mem_cons.mp h with rfl | hmem
    · refine ⟨s, List.mem_cons_self s rest, ?_⟩
      show (V11.collectGaps _ s.data 0 acc).1 = _
      exact v11_collectGaps_fst _ s.data 0 acc
    · obtain ⟨t, ht, he⟩ := ih hmem
      exact ⟨t, List.mem_cons_of_mem s ht, he⟩

theorem v11_scanned_origOk {d : Int} {xs : List Int} (hd : 0 < d)
    (hspace : List.Chain' (fun a b => a + d < b) xs)
    {series : List V11.Series}
    (halign : ∀ s ∈ series, s.data.map V11.Point.x = xs) :
    ∀ s' ∈ (V11.scanSeries series 0 ([], [])).1, OrigOk d s'.data := by
  intro s' hmem
  obtain ⟨s, hs, hdata⟩ := v11_scanSeries_mem hmem
  refine ⟨hd, ?_, ?_⟩
  · show List.Chain' (fun p q : V11.Point => p.x + d < q.x) s'.data
    have hx : s'.data.map V11.Point.x = xs := by
      rw [hdata, List.map_map]
      have hcomp : (V11.Point.x ∘ tagIfNull) = V11.Point.x :=
        funext fun p => tagIfNull_x p
      rw [hcomp]
      exact halign s hs
    rw [← hx] at hspace
    exact (List.chain'_map V11.Point.x).mp hspace
  · intro p hp hy
    rw [hdata] at hp
    obtain ⟨q, _, rfl⟩ := List.mem_map.mp hp
    exact tagIfNull_tag q hy

theorem v11_fixPass_chain {d : Int} {gaps : List V11.Gap}
    (hdesc : gaps.Pairwise (fun a g => g.index < a.index)) :
    ∀ (sl : List V11.Series), (∀ s ∈ sl, OrigOk d s.data) →
      ∀ s' ∈ (V11.fixPass d gaps sl).1, StrictX s'.data := by
  intro sl
  induction sl with
  | nil =>
    intro _ s' h
    simp [V11.fixPass] at h
  | cons s rest ih =>
    intro hok s' hmem
    unfold V11.fixPass at hmem
    cases hfd : V11.fixData d gaps s.data with
    | mk data' oe =>
      rw [hfd] at hmem
      have hhead : StrictX data' := by
        have h1 := v11_fixData_chain (hok s (List.mem_cons_self s rest)) hdesc
        rw [hfd] at h1
        exact h1
      cases oe with
      | some e =>
        dsimp only at hmem
        rcases List.mem_cons.mp hmem with rfl | hmem'
        · exact hhead
        · obtain ⟨hd', hsp, _⟩ := hok s' (List.mem_cons_of_mem s hmem')
          exact v11_spaced_strictX hd' hsp
      | none =>
        dsimp only at hmem
        rcases List.mem_cons.mp hmem with rfl | hmem'
        · exact hhead
        · exact ih (fun t ht => hok t (List.mem_cons_of_mem s ht)) s' hmem'

/-- C2: under the stated preconditions — all series share one x-sequence,
that sequence is strictly increasing with every consecutive distance larger
than the (positive) offset δ — every series returned by `fixSeries` has a
strictly increasing x-sequence: every inserted fix point lands strictly
between the x-values of its neighbours and no two points share an x.  This
holds for the state after the call even when the call aborts with an
error. -/
theorem expand_preserves_strict_monotonicity (d : Int)
    (series : List V11.Series) (xs : List Int) (hd : 0 < d)
    (halign : ∀ s ∈ series, s.data.map V11.Point.x = xs)
    (hspace : List.Chain' (fun a b => a + d < b) xs) :
    ∀ s' ∈ (V11.fixSeries d series).1,
      List.Chain' (· < ·) (xsOf s'.data) := by
  intro s' hmem
  unfold V11.fixSeries at hmem
  have hok := v11_scanned_origOk hd hspace halign
  have hacc := v11_scanSeries_gapAcc series 0 ([], []) ⟨rfl, List.nodup_nil⟩
  have hnd : ((V11.scanSeries series 0 ([], [])).2.2.map V11.Gap.index).Nodup :=
    by
      rw [← hacc.1]
      exact hacc.2
  have hdesc := v11_sortGapsDesc_pairwise hnd
  have hchain := v11_fixPass_chain hdesc _ hok s' hmem
  exact (List.chain'_map V11.Point.x).mpr hchain

/-- Witness for `expand_preserves_strict_monotonicity` on the concrete
shared-gap input with δ = 1 and x-spacing 5. -/
theorem expand_preserves_strict_monotonicity_witness :
    (0 : Int) < 1 ∧
      (∀ s ∈ [(⟨none, c8data⟩ : V11.Series), ⟨none, c8data⟩],
        s.data.map V11.Point.x = [10, 15, 20]) ∧
      List.Chain' (fun a b => a + 1 < b) [(10 : Int), 15, 20] ∧
      (∀ s' ∈ (V11.fixSeries 1 [⟨none, c8data⟩, ⟨none, c8data⟩]).1,
        List.Chain' (· < ·) (xsOf s'.data)) :=
  ⟨by decide, by decide, by norm_num [List.chain'_cons, List.chain'_singleton],
    expand_preserves_strict_monotonicity 1 [⟨none, c8data⟩, ⟨none, c8data⟩]
      [10, 15, 20] (by decide) (by decide)
      (by norm_num [List.chain'_cons, List.chain'_singleton])⟩

/-! ## Consecutive gap runs (C5): evaluation lemmas -/

theorem getElem?_append_offset {α : Type} (A l : List α) (k : Nat) :
    (A ++ l)[A.length + k]? = l[k]? := by
  rw [List.getElem?_append_right (by omega)]
  congr 1
  omega

theorem v11_getPrev_of_gap {data : List V11.Point} {j : Nat} {p : V11.Point}
    (h : data[j]? = some p) (ht : p.type = some V11.PType.gap) :
    V11.getPrev data (j + 1) = .ok none := by
  unfold V11.getPrev
  rw [h]
  dsimp only
  rw [if_pos ht]

theorem v11_getPrev_of_value {data : List V11.Point} {j : Nat} {p : V11.Point}
    {yv : Int} (h : data[j]? = some p) (ht : p.type ≠ some V11.PType.gap)
    (hy : p.y = some yv) :
    V11.getPrev data (j + 1) = .ok (some ⟨p.x, yv⟩) := by
  unfold V11.getPrev
  rw [h]
  dsimp only
  rw [if_neg ht, hy]

theorem v11_getNext_of_gap {data : List V11.Point} {i : Nat} {p : V11.Point}
    (h : data[i + 1]? = some p) (ht : p.type = some V11.PType.gap) :
    V11.getNext data i = none := by
  unfold V11.getNext
  have hh : (data.drop (i + 1)).head? = some p := by
    rw [List.head?_drop]
    exact h
  cases hd : data.drop (i + 1) with
  | nil => rw [hd] at hh; simp at hh
  | cons q rest =>
    rw [hd] at hh
    rw [List.head?_cons] at hh
    obtain rfl := Option.some.inj hh
    unfold V11.getNextAux
    rw [if_pos ht]

theorem v11_getNext_of_value {data : List V11.Point} {i : Nat} {p : V11.Point}
    {yv : Int} (h : data[i + 1]? = some p)
    (ht : p.type ≠ some V11.PType.gap) (hy : p.y = some yv) :
    V11.getNext data i = some ⟨p.x, yv⟩ := by
  unfold V11.getNext
  have hh : (data.drop (i + 1)).head? = some p := by
    rw [List.head?_drop]
    exact h
  cases hd : data.drop (i + 1) with
  | nil => rw [hd] at hh; simp at hh
  | cons q rest =>
    rw [hd] at hh
    rw [List.head?_cons] at hh
    obtain rfl := Option.some.inj hh
    unfold V11.getNextAux
    rw [if_neg ht, hy]

theorem v11_tryInsert_insert {data : List V11.Point} {i : Nat}
    {g w : V11.Point} (hw : data[i]? = some w)
    (hwf : w.type ≠ some V11.PType.gapfix) :
    V11.tryInsert data i g = (V11.spliceInsert data i g, none) := by
  unfold V11.tryInsert V11.insertGapFix
  rw [hw]
  dsimp only
  rw [if_neg hwf]

theorem v11_fixGapStep_eq {d : Int} {data data1 : List V11.Point}
    {gap : V11.Gap} {prev : Option V11.Boundary} {gp : V11.Point}
    (hp : V11.getPrev data gap.index = .ok prev)
    (hg : data[gap.index]? = some gp)
    (hn : V11.nextSideFix d data gap (gp.y == none)
      (V11.getNext data gap.index) = (data1, none)) :
    V11.fixGapStep d data gap =
      V11.prevSideFix d data1 gap (gp.y == none) prev := by
  unfold V11.fixGapStep
  rw [hp]
  dsimp only
  rw [hg]
  dsimp only
  rw [hn]

theorem v11_fixGapStep_noop {d : Int} {data : List V11.Point} {g : V11.Gap}
    {j : Nat} {pp gp pn : V11.Point} (hj : g.index = j + 1)
    (hp : data[j]? = some pp) (hpt : pp.type = some V11.PType.gap)
    (hg : data[g.index]? = some gp)
    (hn : data[g.index + 1]? = some pn)
    (hnt : pn.type = some V11.PType.gap) :
    V11.fixGapStep d data g = (data, none) := by
  have hprev : V11.getPrev data g.index = .ok none := by
    rw [hj]
    exact v11_getPrev_of_gap hp hpt
  have hnext : V11.getNext data g.index = none := v11_getNext_of_gap hn hnt
  have hns : V11.nextSideFix d data g (gp.y == none)
      (V11.getNext data g.index) = (data, none) := by
    rw [hnext]
    rfl
  rw [v11_fixGapStep_eq hprev hg hns]
  rfl

theorem v11_fixData_cons (d : Int) (g : V11.Gap) (rest : List V11.Gap)
    (data : List V11.Point) :
    V11.fixData d (g :: rest) data =
      (match V11.fixGapStep d data g with
       | (data', some e) => (data', some e)
       | (data', none) => V11.fixData d rest data') := rfl

theorem v11_fixData_append {d : Int} {L₁ L₂ : List V11.Gap}
    {data data' : List V11.Point}
    (h : V11.fixData d L₁ data = (data', none)) :
    V11.fixData d (L₁ ++ L₂) data = V11.fixData d L₂ data' := by
  induction L₁ generalizing data with
  | nil =>
    obtain rfl := (Prod.mk.injEq _ _ _ _).mp h |>.1
    rfl
  | cons g rest ih =>
    rw [v11_fixData_cons] at h
    rw [List.cons_append, v11_fixData_cons]
    cases hstep : V11.fixGapStep d data g with
    | mk data1 oe =>
      rw [hstep] at h
      cases oe with
      | some e => simp at h
      | none =>
        dsimp only at h ⊢
        exact ih h

theorem v11_fixData_noop {d : Int} {L : List V11.Gap} {data : List V11.Point}
    (h : ∀ g ∈ L, V11.fixGapStep d data g = (data, none)) :
    V11.fixData d L data = (data, none) := by
  induction L with
  | nil => rfl
  | cons g rest ih =>
    unfold V11.fixData
    rw [h g (List.mem_cons_self g rest)]
    exact ih fun g' hg' => h g' (List.mem_cons_of_mem g hg')

theorem v11_collectGaps_nonnull (sid : Int) {A : List V11.Point}
    (hA : ∀ p ∈ A, p.y ≠ none) :
    ∀ (rest : List V11.Point) (i : Nat) (acc : List Nat × List V11.Gap),
      V11.collectGaps sid (A ++ rest) i acc =
        (A ++ (V11.collectGaps sid rest (i + A.length) acc).1,
          (V11.collectGaps sid rest (i + A.length) acc).2) := by
  induction A with
  | nil =>
    intro rest i acc
    simp
  | cons p A' ih =>
    intro rest i acc
    have hp : ¬p.y = none := hA p (List.mem_cons_self p A')
    rw [List.cons_append]
    simp only [V11.collectGaps, if_neg hp]
    rw [ih (fun q hq => hA q (List.mem_cons_of_mem p hq)) rest (i + 1) acc]
    have harith : i + 1 + A'.length = i + (A'.length + 1) := by omega
    rw [harith]
    simp [List.length_cons]

theorem v11_collectGaps_nullrun (sid : Int) {R : List V11.Point}
    (hR : ∀ p ∈ R, p.y = none) :
    ∀ (rest : List V11.Point) (i : Nat) (acc : List Nat × List V11.Gap),
      (∀ j ∈ acc.1, j < i) →
      V11.collectGaps sid (R ++ rest) i acc =
        (R.map V11.tagGap ++
          (V11.collectGaps sid rest (i + R.length)
            (acc.1 ++ (gapRecordsOf sid i R).map V11.Gap.index,
              acc.2 ++ gapRecordsOf sid i R)).1,
          (V11.collectGaps sid rest (i + R.length)
            (acc.1 ++ (gapRecordsOf sid i R).map V11.Gap.index,
              acc.2 ++ gapRecordsOf sid i R)).2) := by
  induction R with
  | nil =>
    intro rest i acc hacc
    simp [gapRecordsOf]
  | cons p R' ih =>
    intro rest i acc hacc
    have hp : p.y = none := hR p (List.mem_cons_self p R')
    rw [List.cons_append]
    simp only [V11.collectGaps, if_pos hp]
    have hadd : V11.addGapRecord acc sid i p =
        (acc.1 ++ [i], acc.2 ++ [⟨[sid], i, p.x, p.y⟩]) := by
      unfold V11.addGapRecord
      have hf : acc.1.findIdx? (· == i) = none := by
        rw [List.findIdx?_eq_none_iff]
        intro j hj
        have := hacc j hj
        simp
        omega
      rw [hf]
    rw [hadd]
    rw [ih (fun q hq => hR q (List.mem_cons_of_mem p hq)) rest (i + 1)
      (acc.1 ++ [i], acc.2 ++ [V11.Gap.mk [sid] i p.x p.y])
      (by
        intro j hj
        rcases List.mem_append.mp hj with h1 | h1
        · have := hacc j h1
          omega
        · rw [List.mem_singleton] at h1
          omega)]
    have harith : i + 1 + R'.length = i + (R'.length + 1) := by omega
    rw [harith]
    show (V11.tagGap p :: (R'.map V11.tagGap ++ _), _) = _
    simp only [gapRecordsOf, List.map_cons, List.length_cons, List.map]
    rw [List.append_assoc, List.append_assoc]
    simp [List.cons_append]

theorem gapRecordsOf_mem (sid : Int) :
    ∀ (R : List V11.Point) (i : Nat) (g : V11.Gap),
      g ∈ gapRecordsOf sid i R → ∃ k, k < R.length ∧ g.index = i + k := by
  intro R
  induction R with
  | nil => intro i g h; simp [gapRecordsOf] at h
  | cons p R' ih =>
    intro i g h
    rw [gapRecordsOf] at h
    rcases List.mem_cons.mp h with rfl | h'
    · exact ⟨0, by simp, by simp⟩
    · obtain ⟨k, hk, hg⟩ := ih (i + 1) g h'
      exact ⟨k + 1, by simp; omega, by omega⟩

theorem gapRecordsOf_sorted (sid : Int) :
    ∀ (R : List V11.Point) (i : Nat),
      (gapRecordsOf sid i R).Pairwise (fun a b => a.index ≤ b.index) := by
  intro R
  induction R with
  | nil => intro i; exact List.Pairwise.nil
  | cons p R' ih =>
    intro i
    rw [gapRecordsOf]
    rw [List.pairwise_cons]
    refine ⟨?_, ih (i + 1)⟩
    intro g hg
    obtain ⟨k, _, hgk⟩ := gapRecordsOf_mem sid R' (i + 1) g hg
    show i ≤ g.index
    omega

theorem gapRecordsOf_append (sid : Int) :
    ∀ (X Y : List V11.Point) (i : Nat),
      gapRecordsOf sid i (X ++ Y) =
        gapRecordsOf sid i X ++ gapRecordsOf sid (i + X.length) Y := by
  intro X
  induction X with
  | nil => intro Y i; simp [gapRecordsOf]
  | cons p X' ih =>
    intro Y i
    rw [List.cons_append, gapRecordsOf, gapRecordsOf, ih Y (i + 1)]
    have harith : i + 1 + X'.length = i + (X'.length + 1) := by omega
    rw [harith]
    simp

theorem v11_sortGapsDesc_of_sorted {gaps : List V11.Gap}
    (h : gaps.Pairwise (fun a b => a.index ≤ b.index)) :
    V11.sortGapsDesc gaps = gaps.reverse := by
  unfold V11.sortGapsDesc
  congr 1
  exact List.Sorted.insertionSort_eq h

theorem v11_collectGaps_nonnull_term (sid : Int) {B : List V11.Point}
    (hB : ∀ p ∈ B, p.y ≠ none) (i : Nat) (acc : List Nat × List V11.Gap) :
    V11.collectGaps sid B i acc = (B, acc) := by
  have h := v11_collectGaps_nonnull sid hB [] i acc
  rw [List.append_nil] at h
  have h0 : V11.collectGaps sid [] (i + B.length) acc = ([], acc) := rfl
  rw [h0] at h
  simpa using h

theorem v11_step_top {d : Int} {A Rt B₀ : List V11.Point} {pb : V11.Point}
    {g : V11.Gap} {yb : Int}
    (hRt : ∀ p ∈ Rt, p.type = some V11.PType.gap ∧ p.y = none)
    (hlen : 2 ≤ Rt.length)
    (hg : g.index = A.length + Rt.length - 1)
    (hpbt : pb.type = none) (hpby : pb.y = some yb) :
    V11.fixGapStep d (A ++ (Rt ++ (pb :: B₀))) g =
      ((A ++ Rt) ++
        (V11.createGapFixPoint (pb.x - d) none :: (pb :: B₀)), none) := by
  have hidx : ∀ k, k < Rt.length →
      (A ++ (Rt ++ (pb :: B₀)))[A.length + k]? = Rt[k]? := by
    intro k hk
    rw [getElem?_append_offset]
    exact List.getElem?_append_left hk
  -- the point at the top of the run
  have hm1 : Rt.length - 1 < Rt.length := by omega
  obtain ⟨gp, hgp⟩ : ∃ gp, Rt[Rt.length - 1]? = some gp :=
    ⟨Rt[Rt.length - 1], List.getElem?_eq_getElem hm1⟩
  have hg' : g.index = A.length + (Rt.length - 1) := by omega
  have hgidx : (A ++ (Rt ++ (pb :: B₀)))[g.index]? = some gp := by
    rw [hg', hidx _ hm1]
    exact hgp
  -- its predecessor inside the run is a tagged gap
  have hm2 : Rt.length - 2 < Rt.length := by omega
  obtain ⟨pp, hpp⟩ : ∃ pp, Rt[Rt.length - 2]? = some pp :=
    ⟨Rt[Rt.length - 2], List.getElem?_eq_getElem hm2⟩
  have hprev : V11.getPrev (A ++ (Rt ++ (pb :: B₀))) g.index = .ok none := by
    have hj1 : g.index = (A.length + (Rt.length - 2)) + 1 := by omega
    rw [hj1]
    exact v11_getPrev_of_gap (by rw [hidx _ hm2]; exact hpp)
      (hRt pp (List.getElem?_mem hpp)).1
  -- the successor is pb
  have hnx : (A ++ (Rt ++ (pb :: B₀)))[g.index + 1]? = some pb := by
    have h1 : g.index + 1 = A.length + Rt.length := by omega
    rw [h1, ← List.length_append, ← List.append_assoc]
    have h2 := getElem?_append_offset (A ++ Rt) (pb :: B₀) 0
    rw [Nat.add_zero] at h2
    rw [h2]
    exact List.getElem?_cons_zero
  have hnext : V11.getNext (A ++ (Rt ++ (pb :: B₀))) g.index =
      some ⟨pb.x, yb⟩ :=
    v11_getNext_of_value hnx (by rw [hpbt]; simp) hpby
  -- the successor-side insertion
  have hisgap : (gp.y == none) = true := by
    rw [(hRt gp (List.getElem?_mem hgp)).2]
    rfl
  have hsplice : V11.spliceInsert (A ++ (Rt ++ (pb :: B₀))) (g.index + 1)
      (V11.createGapFixPoint (pb.x - d) none) =
      (A ++ Rt) ++ (V11.createGapFixPoint (pb.x - d) none :: (pb :: B₀)) := by
    unfold V11.spliceInsert
    rw [← List.append_assoc]
    have hl : g.index + 1 = (A ++ Rt).length := by
      rw [List.length_append]
      omega
    rw [hl, List.take_left, List.drop_left]
  have hns : V11.nextSideFix d (A ++ (Rt ++ (pb :: B₀))) g (gp.y == none)
      (V11.getNext (A ++ (Rt ++ (pb :: B₀))) g.index) =
      ((A ++ Rt) ++ (V11.createGapFixPoint (pb.x - d) none :: (pb :: B₀)),
        none) := by
    rw [hnext]
    show V11.tryInsert _ _ _ = _
    have hval : (if (gp.y == none) then none else
        some (V11.Boundary.mk pb.x yb).y) = none := by
      rw [hisgap]
      rfl
    rw [hval]
    rw [v11_tryInsert_insert hnx (by rw [hpbt]; simp), hsplice]
  rw [v11_fixGapStep_eq hprev hgidx hns]
  rfl

theorem v11_step_mid {d : Int} {A Rt X : List V11.Point} {g : V11.Gap}
    (j : Nat) (hRt : ∀ p ∈ Rt, p.type = some V11.PType.gap ∧ p.y = none)
    (hj1 : 1 ≤ j) (hj2 : j + 1 < Rt.length)
    (hg : g.index = A.length + j) :
    V11.fixGapStep d ((A ++ Rt) ++ X) g = ((A ++ Rt) ++ X, none) := by
  have hidx : ∀ k, k < Rt.length →
      ((A ++ Rt) ++ X)[A.length + k]? = Rt[k]? := by
    intro k hk
    rw [List.getElem?_append_left (by rw [List.length_append]; omega)]
    exact getElem?_append_offset A Rt k
  obtain ⟨pp, hpp⟩ : ∃ pp, Rt[j - 1]? = some pp :=
    ⟨Rt[j - 1], List.getElem?_eq_getElem (by omega)⟩
  obtain ⟨gp, hgp⟩ : ∃ gp, Rt[j]? = some gp :=
    ⟨Rt[j], List.getElem?_eq_getElem (by omega)⟩
  obtain ⟨pn, hpn⟩ : ∃ pn, Rt[j + 1]? = some pn :=
    ⟨Rt[j + 1], List.getElem?_eq_getElem (by omega)⟩
  refine v11_fixGapStep_noop (show g.index = (A.length + (j - 1)) + 1 by omega)
    (by rw [hidx _ (by omega)]; exact hpp)
    (hRt pp (List.getElem?_mem hpp)).1
    (by rw [hg, hidx _ (by omega)]; exact hgp)
    (by
      rw [show g.index + 1 = A.length + (j + 1) by omega, hidx _ hj2]
      exact hpn)
    (hRt pn (List.getElem?_mem hpn)).1

theorem v11_step_bot {d : Int} {A₀ Rt X : List V11.Point} {pa : V11.Point}
    {g : V11.Gap} {ya : Int}
    (hRt : ∀ p ∈ Rt, p.type = some V11.PType.gap ∧ p.y = none)
    (hlen : 2 ≤ Rt.length)
    (hg : g.index = (A₀ ++ [pa]).length)
    (hpat : pa.type = none) (hpay : pa.y = some ya) :
    V11.fixGapStep d (((A₀ ++ [pa]) ++ Rt) ++ X) g =
      ((A₀ ++ [pa]) ++
        (V11.createGapFixPoint (pa.x + d) none :: (Rt ++ X)), none) := by
  have ha : (A₀ ++ [pa]).length = A₀.length + 1 := by simp
  have hidx : ∀ k, k < Rt.length →
      (((A₀ ++ [pa]) ++ Rt) ++ X)[(A₀ ++ [pa]).length + k]? = Rt[k]? := by
    intro k hk
    rw [List.getElem?_append_left (by simp only [List.length_append]; omega)]
    exact getElem?_append_offset (A₀ ++ [pa]) Rt k
  -- the predecessor is pa
  have hpa : (((A₀ ++ [pa]) ++ Rt) ++ X)[A₀.length]? = some pa := by
    rw [List.getElem?_append_left (by simp only [List.length_append,
      List.length_cons, List.length_nil]; omega)]
    rw [List.getElem?_append_left (by simp only [List.length_append,
      List.length_cons, List.length_nil]; omega)]
    have h2 := getElem?_append_offset A₀ [pa] 0
    rw [Nat.add_zero] at h2
    rw [h2]
    exact List.getElem?_cons_zero
  have hprev : V11.getPrev (((A₀ ++ [pa]) ++ Rt) ++ X) g.index =
      .ok (some ⟨pa.x, ya⟩) := by
    rw [show g.index = A₀.length + 1 by omega]
    exact v11_getPrev_of_value hpa (by rw [hpat]; simp) hpay
  -- the gap slot is the first tagged run point
  obtain ⟨gp, hgp⟩ : ∃ gp, Rt[0]? = some gp :=
    ⟨Rt[0], List.getElem?_eq_getElem (by omega)⟩
  have hgidx : (((A₀ ++ [pa]) ++ Rt) ++ X)[g.index]? = some gp := by
    rw [hg, show (A₀ ++ [pa]).length = (A₀ ++ [pa]).length + 0 by omega,
      hidx _ (by omega)]
    exact hgp
  -- the successor slot is the second tagged run point
  obtain ⟨pn, hpn⟩ : ∃ pn, Rt[1]? = some pn :=
    ⟨Rt[1], List.getElem?_eq_getElem (by omega)⟩
  have hnext : V11.getNext (((A₀ ++ [pa]) ++ Rt) ++ X) g.index = none :=
    v11_getNext_of_gap
      (by rw [show g.index + 1 = (A₀ ++ [pa]).length + 1 by omega, hidx _ (by omega)]; exact hpn)
      (hRt pn (List.getElem?_mem hpn)).1
  have hisgap : (gp.y == none) = true := by
    rw [(hRt gp (List.getElem?_mem hgp)).2]
    rfl
  have hns : V11.nextSideFix d (((A₀ ++ [pa]) ++ Rt) ++ X) g (gp.y == none)
      (V11.getNext (((A₀ ++ [pa]) ++ Rt) ++ X) g.index) =
      (((A₀ ++ [pa]) ++ Rt) ++ X, none) := by
    rw [hnext]
    rfl
  rw [v11_fixGapStep_eq hprev hgidx hns]
  show V11.tryInsert _ _ _ = _
  have hval : (if (gp.y == none) then none else
      some (V11.Boundary.mk pa.x ya).y) = none := by
    rw [hisgap]
    rfl
  rw [hval]
  rw [v11_tryInsert_insert hgidx
    (by rw [(hRt gp (List.getElem?_mem hgp)).1]; simp)]
  unfold V11.spliceInsert
  rw [List.append_assoc]
  rw [show g.index = (A₀ ++ [pa]).length from hg, List.take_left,
    List.drop_left]

theorem v11_scan_run (sid₀ : Option Int) {A R B : List V11.Point}
    (hAy : ∀ p ∈ A, p.y ≠ none) (hBy : ∀ p ∈ B, p.y ≠ none)
    (hRy : ∀ p ∈ R, p.y = none) :
    V11.scanSeries [⟨sid₀, A ++ (R ++ B)⟩] 0 ([], []) =
      ([⟨some (sid₀.getD 0), A ++ (R.map V11.tagGap ++ B)⟩],
        ((gapRecordsOf (sid₀.getD 0) A.length R).map V11.Gap.index,
          gapRecordsOf (sid₀.getD 0) A.length R)) := by
  have hscan : V11.collectGaps (sid₀.getD 0) (A ++ (R ++ B)) 0 ([], []) =
      (A ++ (R.map V11.tagGap ++ B),
        ((gapRecordsOf (sid₀.getD 0) A.length R).map V11.Gap.index,
          gapRecordsOf (sid₀.getD 0) A.length R)) := by
    rw [v11_collectGaps_nonnull _ hAy (R ++ B) 0 ([], [])]
    rw [Nat.zero_add]
    rw [v11_collectGaps_nullrun _ hRy B A.length ([], []) (by intro j hj; simp at hj)]
    rw [v11_collectGaps_nonnull_term _ hBy]
    simp
  show ((⟨some (sid₀.getD 0),
      (V11.collectGaps (sid₀.getD 0) (A ++ (R ++ B)) 0 ([], [])).1⟩ : V11.Series) ::
        (V11.scanSeries [] 1 (V11.collectGaps (sid₀.getD 0) (A ++ (R ++ B)) 0 ([], [])).2).1,
      (V11.scanSeries [] 1 (V11.collectGaps (sid₀.getD 0) (A ++ (R ++ B)) 0 ([], [])).2).2) = _
  rw [hscan]
  rfl

theorem v11_fixData_run (d sid : Int) (A₀ Rmid B₀ : List V11.Point)
    (pa r0 r1 pb : V11.Point) (ya yb : Int)
    (hpay : pa.y = some ya) (hpat : pa.type = none)
    (hpby : pb.y = some yb) (hpbt : pb.type = none)
    (hRy : ∀ p ∈ r0 :: (Rmid ++ [r1]), p.y = none) :
    V11.fixData d
        (gapRecordsOf sid (A₀ ++ [pa]).length (r0 :: (Rmid ++ [r1]))).reverse
        ((A₀ ++ [pa]) ++
          ((r0 :: (Rmid ++ [r1])).map V11.tagGap ++ (pb :: B₀))) =
      ((A₀ ++ [pa]) ++
        (V11.createGapFixPoint (pa.x + d) none ::
          ((r0 :: (Rmid ++ [r1])).map V11.tagGap ++
            (V11.createGapFixPoint (pb.x - d) none :: (pb :: B₀)))),
        none) := by
  have hRt : ∀ p ∈ (r0 :: (Rmid ++ [r1])).map V11.tagGap,
      p.type = some V11.PType.gap ∧ p.y = none := by
    intro p hp
    obtain ⟨q, hq, rfl⟩ := List.mem_map.mp hp
    exact ⟨rfl, hRy q hq⟩
  have hlen2 : 2 ≤ ((r0 :: (Rmid ++ [r1])).map V11.tagGap).length := by
    simp
  have hrec : gapRecordsOf sid (A₀ ++ [pa]).length (r0 :: (Rmid ++ [r1])) =
      V11.Gap.mk [sid] (A₀ ++ [pa]).length r0.x r0.y ::
        (gapRecordsOf sid ((A₀ ++ [pa]).length + 1) Rmid ++
          [V11.Gap.mk [sid] ((A₀ ++ [pa]).length + 1 + Rmid.length)
            r1.x r1.y]) := by
    show V11.Gap.mk [sid] (A₀ ++ [pa]).length r0.x r0.y ::
        gapRecordsOf sid ((A₀ ++ [pa]).length + 1) (Rmid ++ [r1]) = _
    rw [gapRecordsOf_append sid Rmid [r1] ((A₀ ++ [pa]).length + 1)]
    rfl
  have hrev : (gapRecordsOf sid (A₀ ++ [pa]).length
      (r0 :: (Rmid ++ [r1]))).reverse =
      V11.Gap.mk [sid] ((A₀ ++ [pa]).length + 1 + Rmid.length) r1.x r1.y ::
        ((gapRecordsOf sid ((A₀ ++ [pa]).length + 1) Rmid).reverse ++
          [V11.Gap.mk [sid] (A₀ ++ [pa]).length r0.x r0.y]) := by
    rw [hrec, List.reverse_cons, List.reverse_append]
    simp
  have htop : (V11.Gap.mk [sid] ((A₀ ++ [pa]).length + 1 + Rmid.length)
      r1.x r1.y).index =
      (A₀ ++ [pa]).length + ((r0 :: (Rmid ++ [r1])).map V11.tagGap).length - 1 :=
    by
      show (A₀ ++ [pa]).length + 1 + Rmid.length = _
      simp only [List.length_map, List.length_cons, List.length_append,
        List.length_nil]
      omega
  have hmid : ∀ g ∈ (gapRecordsOf sid ((A₀ ++ [pa]).length + 1) Rmid).reverse,
      V11.fixGapStep d
        (((A₀ ++ [pa]) ++ (r0 :: (Rmid ++ [r1])).map V11.tagGap) ++
          (V11.createGapFixPoint (pb.x - d) none :: (pb :: B₀))) g =
        (((A₀ ++ [pa]) ++ (r0 :: (Rmid ++ [r1])).map V11.tagGap) ++
          (V11.createGapFixPoint (pb.x - d) none :: (pb :: B₀)), none) := by
    intro g hgm
    rw [List.mem_reverse] at hgm
    obtain ⟨k, hk, hgi⟩ := gapRecordsOf_mem sid Rmid _ g hgm
    refine v11_step_mid (k + 1) hRt (by omega) ?_ ?_
    · simp only [List.length_map, List.length_cons, List.length_append,
        List.length_nil]
      omega
    · omega
  rw [hrev, v11_fixData_cons]
  rw [v11_step_top hRt hlen2 htop hpbt hpby]
  dsimp only
  rw [v11_fixData_append (v11_fixData_noop hmid)]
  rw [v11_fixData_cons]
  rw [v11_step_bot hRt hlen2 rfl hpat hpay]
  rfl

/-- C5: under `part_000`'s nearest-non-gap boundary policy, a run of two or
more adjacent gap points in a series (here `r0 :: Rmid ++ [r1]`, flanked by
the non-null points `pa` and `pb`) receives exactly one predecessor-side fix
point, placed immediately before the first gap of the run, and exactly one
successor-side fix point, placed immediately after the last gap of the run —
not one pair per gap index: the full output is the input with the run tagged
and those two fix points inserted, and nothing else. -/
theorem expand_gap_run_single_fix_pair (d : Int) (sid₀ : Option Int)
    (A₀ Rmid B₀ : List V11.Point) (pa r0 r1 pb : V11.Point)
    (hAy : ∀ p ∈ A₀ ++ [pa], p.y ≠ none)
    (hBy : ∀ p ∈ pb :: B₀, p.y ≠ none)
    (hRy : ∀ p ∈ r0 :: (Rmid ++ [r1]), p.y = none)
    (hpat : pa.type = none) (hpbt : pb.type = none) :
    V11.fixSeries d
        [⟨sid₀, (A₀ ++ [pa]) ++ ((r0 :: (Rmid ++ [r1])) ++ (pb :: B₀))⟩] =
      ([⟨some (sid₀.getD 0),
          (A₀ ++ [pa]) ++
            (V11.createGapFixPoint (pa.x + d) none ::
              ((r0 :: (Rmid ++ [r1])).map V11.tagGap ++
                (V11.createGapFixPoint (pb.x - d) none :: (pb :: B₀))))⟩],
        none) := by
  obtain ⟨ya, hpay⟩ :=
    Option.ne_none_iff_exists'.mp (hAy pa (by simp))
  obtain ⟨yb, hpby⟩ :=
    Option.ne_none_iff_exists'.mp (hBy pb (List.mem_cons_self pb B₀))
  unfold V11.fixSeries
  rw [v11_scan_run sid₀ hAy hBy hRy]
  dsimp only
  rw [v11_sortGapsDesc_of_sorted (gapRecordsOf_sorted _ _ _)]
  unfold V11.fixPass
  rw [v11_fixData_run d (sid₀.getD 0) A₀ Rmid B₀ pa r0 r1 pb ya yb
    hpay hpat hpby hpbt hRy]
  rfl

/-- Witness for `expand_gap_run_single_fix_pair` on a concrete two-gap run
between x = 0 (value 5) and x = 30000 (value 5), with δ = 1000. -/
theorem expand_gap_run_single_fix_pair_witness :
    (∀ p ∈ ([] : List V11.Point) ++ [mkPt 0 (some 5)], p.y ≠ none) ∧
      (∀ p ∈ mkPt 30000 (some 5) :: ([] : List V11.Point), p.y ≠ none) ∧
      (∀ p ∈ mkPt 10000 none :: (([] : List V11.Point) ++ [mkPt 20000 none]),
        p.y = none) ∧
      V11.fixSeries 1000
          [⟨none, ([] ++ [mkPt 0 (some 5)]) ++
            ((mkPt 10000 none :: ([] ++ [mkPt 20000 none])) ++
              (mkPt 30000 (some 5) :: []))⟩] =
        ([⟨some ((none : Option Int).getD 0),
            ([] ++ [mkPt 0 (some 5)]) ++
              (V11.createGapFixPoint ((mkPt 0 (some 5)).x + 1000) none ::
                ((mkPt 10000 none :: ([] ++ [mkPt 20000 none])).map V11.tagGap ++
                  (V11.createGapFixPoint ((mkPt 30000 (some 5)).x - 1000) none ::
                    (mkPt 30000 (some 5) :: []))))⟩],
          none) :=
  ⟨by decide, by decide, by decide,
    expand_gap_run_single_fix_pair 1000 none [] [] [] (mkPt 0 (some 5))
      (mkPt 10000 none) (mkPt 20000 none) (mkPt 30000 (some 5))
      (by decide) (by decide) (by decide) rfl rfl⟩
